import Mathlib

/-!
# DevBackupBuddy: a shallow embedding of the sync engine

This file embeds the core of the DevBackupBuddy backup tool
(`file_index.py`, `sync_engine.py`, `backup_utils.py`, `main.py`,
`config.py`) in Lean 4 and proves the specification claims about it.

Modelling conventions:

* Paths are `String`s with `/` separators (the tool normalizes all index
  paths to forward slashes; the filesystem model is the POSIX case where
  `os.sep = "/"`, so `rel.replace("/", os.sep)` is the identity).
* The MD5 digest is an abstract parameter `md5fn : String → String`
  applied to a file's byte content; the claims depend only on digest
  equality, never on the internals of MD5.
* Python `dict`s keyed by path are modelled as association lists /
  record lists in insertion order.  `FileIndex.by_path` lookup is
  modelled by `List.find?`; for indexes whose paths are pairwise
  distinct (the invariant guaranteed by `build_index`, since `os.walk`
  visits each file once) this coincides with the dict semantics, and
  theorems carry that `Nodup` invariant as a hypothesis.
* `mtime` is modelled as `Int` (the float value is only ever compared
  for equality).
* Filesystem trees are finite maps from full path to file content; I/O
  never fails on an existing file in the model (per-file `OSError`
  handlers in the source are therefore not exercised).
-/

/-- `FileInfo` from `file_index.py`: one indexed file. -/
structure FileInfo where
  relative_path : String
  md5 : String
  mtime : Int
  size : Nat
deriving DecidableEq

/-- A `FileIndex` is modelled as the list of `FileInfo` records in
insertion order (`by_path` and `by_md5` are derived views of it). -/
abbrev FileIndex := List FileInfo

/-- `FileIndex.get_by_path`: dictionary lookup of `by_path`.
`List.find?` returns the first record with the path; for an index with
pairwise-distinct paths this is exactly the dict lookup. -/
def get_by_path (idx : FileIndex) (relative_path : String) : Option FileInfo :=
  idx.find? (fun f => f.relative_path == relative_path)

/-- `FileIndex.get_by_md5`: all records sharing a digest, in insertion
order, as maintained by `FileIndex.add`. -/
def get_by_md5 (idx : FileIndex) (md5 : String) : List FileInfo :=
  idx.filter (fun f => f.md5 == md5)

/-- `all_files` returns the records in insertion order. -/
def all_files (idx : FileIndex) : List FileInfo := idx

/-- Well-formedness invariant of an index built by `build_index`:
relative paths are pairwise distinct. -/
abbrev PathsNodup (idx : FileIndex) : Prop :=
  (idx.map (fun f => f.relative_path)).Nodup

/-- Character-level split (Python `str.split` / `str.splitOn` for a
one-character separator, the only form the tool uses).  Stated on the
character list so that it evaluates inside the kernel. -/
def splitChars (c : Char) : List Char → List (List Char)
  | [] => [[]]
  | ch :: rest =>
    match splitChars c rest with
    | [] => if ch == c then [[], []] else [[ch]]
    | g :: gs => if ch == c then [] :: g :: gs else (ch :: g) :: gs

/-- `String.splitOn` for the one-character separators used by the tool. -/
def strSplitOnChar (c : Char) (s : String) : List String :=
  (splitChars c s.data).map List.asString

/-- `str.lower`. -/
def strToLower (s : String) : String :=
  (s.data.map Char.toLower).asString

/-- `str.endswith`. -/
def strEndsWith (s suffix : String) : Bool :=
  suffix.data.isSuffixOf s.data

/-- `str.replace` for one-character pattern and replacement (the only
form the tool uses, in `normalize_path`). -/
def strReplaceChar (pat rep : Char) (s : String) : String :=
  (s.data.map (fun ch => if ch == pat then rep else ch)).asString

/-- `normalize_path` from `file_index.py`. -/
def normalize_path (path : String) : String :=
  strReplaceChar '\\' '/' path

/-- `os.path.join(root, rel)` in the POSIX model. -/
def osJoin (root rel : String) : String :=
  root ++ "/" ++ rel

/-- `os.path.basename` for a forward-slash path. -/
def osBasename (p : String) : String :=
  (strSplitOnChar '/' p).getLastD ""

/-- The SyncAction enum from `sync_engine.py`. -/
inductive SyncAction where
  | skip
  | copy
  | move
  | delete
deriving DecidableEq

/-- `SyncItem` from `sync_engine.py`. -/
structure SyncItem where
  action : SyncAction
  src_path : Option String
  dst_path : String
  src_rel_path : Option String
  dst_rel_path : String
  move_from : Option String := none
  reason : String := ""
deriving DecidableEq

/-- `SyncPlan` from `sync_engine.py`. -/
structure SyncPlan where
  items : List SyncItem
  src_root : String
  dst_root : String
deriving DecidableEq

def SyncPlan.skips (p : SyncPlan) : List SyncItem :=
  p.items.filter (fun i => i.action == SyncAction.skip)

def SyncPlan.copies (p : SyncPlan) : List SyncItem :=
  p.items.filter (fun i => i.action == SyncAction.copy)

def SyncPlan.moves (p : SyncPlan) : List SyncItem :=
  p.items.filter (fun i => i.action == SyncAction.move)

def SyncPlan.deletes (p : SyncPlan) : List SyncItem :=
  p.items.filter (fun i => i.action == SyncAction.delete)

/-- Leading length of the common prefix of two lists, as computed by the
`zip` / `break` loop in `_path_distance`. -/
def commonPrefixLen : List String → List String → Nat
  | p1 :: r1, p2 :: r2 => if p1 = p2 then commonPrefixLen r1 r2 + 1 else 0
  | _, _ => 0

/-- `_path_distance` from `sync_engine.py`: the loop zips
`parts1[:-1]` with `parts2[:-1]` and counts the matching leading
directory components, then sums the residual directory depths. -/
def pathDistance (path1 path2 : String) : Nat :=
  let parts1 := strSplitOnChar '/' path1
  let parts2 := strSplitOnChar '/' path2
  let common_prefix_len := commonPrefixLen parts1.dropLast parts2.dropLast
  (parts1.length - 1 - common_prefix_len) + (parts2.length - 1 - common_prefix_len)

/-- Python `min(xs, key = f)`: first element with minimal key. -/
def listMinBy (f : FileInfo → Nat) (x : FileInfo) (xs : List FileInfo) : FileInfo :=
  xs.foldl (fun best c => if f c < f best then c else best) x

/-- `_find_best_move_candidate` from `sync_engine.py`.
Priority: 1) same filename, 2) shortest path distance.  The
`src_root` / `dst_root` parameters are unused, as in the source. -/
def findBestMoveCandidate (src_file : FileInfo) (dst_candidates : List FileInfo)
    (_src_root _dst_root : String) : Option FileInfo :=
  match dst_candidates with
  | [] => none
  | x :: xs =>
    let src_filename := osBasename src_file.relative_path
    let same_name := (x :: xs).filter
      (fun c => osBasename c.relative_path == src_filename)
    match same_name with
    | [] =>
      some (listMinBy (fun c => pathDistance src_file.relative_path c.relative_path) x xs)
    | y :: ys =>
      some (listMinBy (fun c => pathDistance src_file.relative_path c.relative_path) y ys)

/-- One project template of `PROJECT_TEMPLATES` in `config.py`. -/
structure ProjectTemplate where
  marker_files : List String
  always_copy : List String
deriving DecidableEq

/-- `PROJECT_TEMPLATES` from `config.py`, in dict insertion order. -/
def PROJECT_TEMPLATES : List (String × ProjectTemplate) :=
  [ ("nodejs",
     { marker_files := ["package.json"],
       always_copy := [".gitignore", ".npmrc", ".nvmrc", ".node-version",
                       "package-lock.json", "yarn.lock", "pnpm-lock.yaml"] }),
    ("typescript",
     { marker_files := ["tsconfig.json"],
       always_copy := ["tsconfig.json", "tsconfig.app.json",
                       "tsconfig.node.json", "tsconfig.build.json"] }),
    ("vite",
     { marker_files := ["vite.config.ts", "vite.config.js"],
       always_copy := ["vite.config.ts", "vite.config.js", "postcss.config.js",
                       "postcss.config.cjs", "tailwind.config.js",
                       "tailwind.config.ts", "index.html"] }),
    ("react",
     { marker_files := ["src/App.tsx", "src/App.jsx", "src/main.tsx", "src/main.jsx"],
       always_copy := ["src/App.tsx", "src/App.jsx", "src/main.tsx", "src/main.jsx",
                       "src/index.css", "src/App.css", "src/vite-env.d.ts"] }),
    ("swc",
     { marker_files := [".swcrc"],
       always_copy := [".swcrc"] }),
    ("eslint",
     { marker_files := ["eslint.config.js", "eslint.config.mjs", ".eslintrc.js",
                        ".eslintrc.json", ".eslintrc.cjs"],
       always_copy := ["eslint.config.js", "eslint.config.mjs", ".eslintrc.js",
                       ".eslintrc.json", ".eslintrc.cjs", ".prettierrc",
                       ".prettierrc.json", ".prettierrc.js", ".editorconfig"] }),
    ("jest",
     { marker_files := ["jest.config.js", "jest.config.ts", "jest.config.mjs"],
       always_copy := ["jest.config.js", "jest.config.ts", "jest.config.mjs",
                       "jest.setup.js", "jest.setup.ts"] }),
    ("pwa",
     { marker_files := ["public/favicon/site.webmanifest", "public/site.webmanifest",
                        "public/manifest.json"],
       always_copy := ["public/favicon/site.webmanifest", "public/favicon/favicon.ico",
                       "public/favicon/favicon-16x16.png", "public/favicon/favicon-32x32.png",
                       "public/favicon/apple-touch-icon.png",
                       "public/favicon/android-chrome-192x192.png",
                       "public/favicon/android-chrome-512x512.png",
                       "public/site.webmanifest", "public/manifest.json",
                       "public/favicon.ico"] }),
    ("shadcn",
     { marker_files := ["components.json", "src/lib/utils.ts"],
       always_copy := ["src/lib/utils.ts", "components.json",
                       "src/components/ui/button.tsx", "src/components/ui/input.tsx",
                       "src/components/ui/card.tsx"] }),
    ("python",
     { marker_files := ["pyproject.toml", "setup.py", "requirements.txt"],
       always_copy := ["pyproject.toml", "setup.py", "setup.cfg", "requirements.txt",
                       "requirements-dev.txt", ".python-version", "pytest.ini",
                       "conftest.py", "tox.ini"] }),
    ("git",
     { marker_files := [".git"],
       always_copy := [".gitignore", ".gitattributes", "LICENSE", "LICENSE.md",
                       "LICENSE.txt", "README.md", "CHANGELOG.md"] }) ]

/-- A `Dict[str, Set[str]]` in insertion order; the sets are lists with
dedup-on-insert (only membership is observed downstream). -/
abbrev RootMap := List (String × List String)

/-- Register one value under a key (`dict`-of-`set` insertion). -/
def rootMapAdd (m : RootMap) (key value : String) : RootMap :=
  match m.find? (fun e => e.1 == key) with
  | none => m ++ [(key, [value])]
  | some _ =>
    m.map (fun e =>
      if e.1 == key then
        (e.1, if e.2.contains value then e.2 else e.2 ++ [value])
      else e)

def rootMapHasKey (m : RootMap) (key : String) : Bool :=
  m.any (fun e => e.1 == key)

/-- The project root derived from one matching marker in
`detect_project_roots` (the body of the two marker branches). -/
def markerRoot (rel marker : String) : Option String :=
  if marker.data.contains '/' then
    if strEndsWith rel marker then
      let marker_depth := marker.toList.count '/' + 1
      let parts := strSplitOnChar '/' rel
      some (if parts.length > marker_depth then
              String.intercalate "/" (parts.take (parts.length - marker_depth))
            else "")
    else none
  else
    if osBasename rel == marker then
      let parts := strSplitOnChar '/' rel
      some (if parts.length > 1 then String.intercalate "/" parts.dropLast else "")
    else none

/-- `detect_project_roots` from `sync_engine.py`: scan every source
record against every template marker. -/
def detect_project_roots (src_index : FileIndex) : RootMap :=
  src_index.foldl (fun acc file_info =>
    PROJECT_TEMPLATES.foldl (fun acc tpl =>
      tpl.2.marker_files.foldl (fun acc marker =>
        match markerRoot file_info.relative_path marker with
        | some root => rootMapAdd acc root tpl.1
        | none => acc) acc) acc) []

/-- `build_always_copy_map` from `sync_engine.py`. -/
def build_always_copy_map (project_roots : RootMap) : RootMap :=
  project_roots.foldl (fun acc e =>
    e.2.foldl (fun acc project_type =>
      let always := ((PROJECT_TEMPLATES.find? (fun t => t.1 == project_type)).map
        (fun t => t.2.always_copy)).getD []
      always.foldl (fun acc filename =>
        let file_path := if e.1 ≠ "" then e.1 ++ "/" ++ filename else filename
        rootMapAdd acc file_path e.1) acc) acc) []

/-- `get_project_root` from `sync_engine.py`: longest known root
obtained by repeatedly dropping trailing path components. -/
def get_project_root (file_path : String) (project_roots : RootMap) : Option String :=
  let parts := strSplitOnChar '/' file_path
  let candidates := ((List.range parts.length).reverse).map
    (fun i => if i > 0 then String.intercalate "/" (parts.take i) else "")
  candidates.find? (fun c => rootMapHasKey project_roots c)

/-- `is_cross_project_move` from `sync_engine.py`: a potential move is
refused (treated as COPY) iff the source path is an always-copy path and
source and candidate resolve to different project roots. -/
def is_cross_project_move (src_path candidate_path : String)
    (project_roots always_copy_map : RootMap) : Bool :=
  if rootMapHasKey always_copy_map src_path then
    get_project_root src_path project_roots != get_project_root candidate_path project_roots
  else
    false

/-- The body of the per-source-file loop of `generate_sync_plan`:
produces the emitted item and the updated `used_dst_paths` set. -/
def planSrcStep (project_roots always_copy_map : RootMap) (dst_index : FileIndex)
    (src_root dst_root : String) (used : List String) (src_file : FileInfo) :
    SyncItem × List String :=
  let rel := src_file.relative_path
  let src_full := osJoin src_root rel
  let dst_full := osJoin dst_root rel
  match get_by_path dst_index rel with
  | some dst_file =>
    if dst_file.md5 == src_file.md5 then
      ({ action := SyncAction.skip, src_path := some src_full, dst_path := dst_full,
         src_rel_path := some rel, dst_rel_path := rel, reason := "Up-to-date" },
       used ++ [rel])
    else
      ({ action := SyncAction.copy, src_path := some src_full, dst_path := dst_full,
         src_rel_path := some rel, dst_rel_path := rel, reason := "Content changed" },
       used ++ [rel])
  | none =>
    let candidates := (get_by_md5 dst_index src_file.md5).filter
      (fun c => !(used.contains c.relative_path))
    match findBestMoveCandidate src_file candidates src_root dst_root with
    | some move_candidate =>
      if is_cross_project_move rel move_candidate.relative_path
          project_roots always_copy_map then
        ({ action := SyncAction.copy, src_path := some src_full, dst_path := dst_full,
           src_rel_path := some rel, dst_rel_path := rel,
           reason := "Project boilerplate (same content in other project)" },
         used)
      else
        ({ action := SyncAction.move, src_path := some src_full, dst_path := dst_full,
           src_rel_path := some rel, dst_rel_path := rel,
           move_from := some (osJoin dst_root move_candidate.relative_path),
           reason := "Moved from " ++ move_candidate.relative_path },
         used ++ [move_candidate.relative_path])
    | none =>
      ({ action := SyncAction.copy, src_path := some src_full, dst_path := dst_full,
         src_rel_path := some rel, dst_rel_path := rel, reason := "New file" },
       used)

/-- The per-source-file loop of `generate_sync_plan`. -/
def planSources (project_roots always_copy_map : RootMap) (dst_index : FileIndex)
    (src_root dst_root : String) :
    List FileInfo → List String → List SyncItem × List String
  | [], used => ([], used)
  | s :: rest, used =>
    let step := planSrcStep project_roots always_copy_map dst_index src_root dst_root used s
    let recur := planSources project_roots always_copy_map dst_index src_root dst_root rest step.2
    (step.1 :: recur.1, recur.2)

/-- The trailing loop of `generate_sync_plan`: destination files whose
path was not consumed and is absent from the source become Delete
actions. -/
def planDeleteItems (src_index dst_index : FileIndex) (dst_root : String)
    (used : List String) : List SyncItem :=
  ((all_files dst_index).filter (fun d =>
      !(used.contains d.relative_path) &&
      (get_by_path src_index d.relative_path).isNone)).map (fun d =>
    { action := SyncAction.delete, src_path := none,
      dst_path := osJoin dst_root d.relative_path,
      src_rel_path := none, dst_rel_path := d.relative_path,
      reason := "Not in source" })

/-- `generate_sync_plan` from `sync_engine.py`. -/
def generate_sync_plan (src_index dst_index : FileIndex)
    (src_root dst_root : String) : SyncPlan :=
  let project_roots := detect_project_roots src_index
  let always_copy_map := build_always_copy_map project_roots
  let fold := planSources project_roots always_copy_map dst_index src_root dst_root
    (all_files src_index) []
  { items := fold.1 ++ planDeleteItems src_index dst_index dst_root fold.2,
    src_root := src_root, dst_root := dst_root }

/-! ## Filesystem model

A source or destination root is a finite map from full path (String,
forward slashes) to file payloads.  File contents are either raw bytes
or the JSON rendering of a JSON value (the latter is what
`save_index_cache` writes); `Jval` is the fragment of JSON the cache
machinery can produce or inspect.  A JSON object is encoded as an
inline association chain (`jnil` / `jfield key value rest`), which is
the same data as a key-value list. -/

/-- A JSON value (the fragment relevant to the index cache). -/
inductive Jval where
  | jnum : Int → Jval
  | jstr : String → Jval
  | jnil : Jval
  | jfield : String → Jval → Jval → Jval
deriving DecidableEq

/-- Whether a JSON value is an object (a Python `dict`). -/
def Jval.isObj : Jval → Bool
  | Jval.jnil => true
  | Jval.jfield _ _ _ => true
  | _ => false

/-- Build a JSON object from a key-value list. -/
def jobjOf : List (String × Jval) → Jval
  | [] => Jval.jnil
  | e :: rest => Jval.jfield e.1 e.2 (jobjOf rest)

/-- `dict.get` on a JSON object; `none` on a missing key and on a
non-object. -/
def jlookup : Jval → String → Option Jval
  | Jval.jfield k v rest, key => if k == key then some v else jlookup rest key
  | _, _ => none

/-- A deterministic rendering of a JSON value.  Only its length and its
value as a digest preimage are ever observed, so the exact syntax is
immaterial. -/
def renderJ : Jval → String
  | Jval.jnum n => toString n
  | Jval.jstr s => "\"" ++ s ++ "\""
  | Jval.jnil => "\x7b\x7d"
  | Jval.jfield k v rest => "\x7b" ++ k ++ ":" ++ renderJ v ++ "+" ++ renderJ rest

/-- File content: raw bytes, or a serialized JSON document. -/
inductive Content where
  | raw : String → Content
  | json : Jval → Content
deriving DecidableEq

/-- The byte string of a content. -/
def contentStr : Content → String
  | Content.raw s => s
  | Content.json j => renderJ j

/-- `os.stat(...).st_size` of a content (the model equates byte count
with character count). -/
def contentSize (c : Content) : Nat := (contentStr c).length

/-- A file on disk: its content and its modification time. -/
structure FsFile where
  content : Content
  mtime : Int
deriving DecidableEq

/-- A directory tree: full path → file, in listing order. -/
abbrev FsTree := List (String × FsFile)

def treeGet (t : FsTree) (k : String) : Option FsFile :=
  (t.find? (fun e => e.1 == k)).map (fun e => e.2)

def treeErase (t : FsTree) (k : String) : FsTree :=
  t.filter (fun e => !(e.1 == k))

/-- Write a file: overwrite in place, or append a new entry. -/
def treeSet (t : FsTree) (k : String) (v : FsFile) : FsTree :=
  if t.any (fun e => e.1 == k) then
    t.map (fun e => if e.1 == k then (k, v) else e)
  else
    t ++ [(k, v)]

/-- `os.path.relpath(full, root)` for a path lying strictly under
`root`: drop the root and the separator. -/
def osRelpath (full root : String) : String :=
  (full.toList.drop (root.length + 1)).asString

/-- `EXCLUDE_DIRS` from `config.py`. -/
def EXCLUDE_DIRS : List String :=
  ["node_modules", "dist", "build", "libs", "__pycache__", ".venv", "venv",
   ".git", ".idea", ".vscode"]

/-- `EXCLUDE_EXTENSIONS` from `config.py`. -/
def EXCLUDE_EXTENSIONS : List String :=
  [".tmp", ".log", ".pyc", ".pyo", ".pyd", ".DS_Store"]

/-- `MAX_FILE_SIZE_MB` from `config.py`. -/
def MAX_FILE_SIZE_MB : Nat := 256

/-- `should_exclude` from `file_index.py` for a regular file of the
given size.  The float comparison `size / (1024*1024) > max_mb` is
exact for any realizable size, hence modelled as
`size > max_mb * 1048576`.  The reason string for an oversize file
elides the float formatting of the reference. -/
def should_exclude (path : String) (size : Nat) (excluded_dirs excluded_extensions : List String)
    (max_file_size_mb : Nat) : Option String :=
  let parts := strSplitOnChar '/' path
  match parts.find? (fun part => excluded_dirs.contains part) with
  | some part => some ("Excluded directory: " ++ part)
  | none =>
    match excluded_extensions.find? (fun ext => strEndsWith (strToLower path) (strToLower ext)) with
    | some ext => some ("Excluded extension: " ++ ext)
    | none =>
      if size > max_file_size_mb * 1048576 then
        some ("File size (MB) > " ++ toString max_file_size_mb ++ "MB")
      else
        none

/-- A skipped-file report entry (`size_mb` elided; only `path`,
`filename` and `reason` are ever consumed by the claims). -/
structure Skipped where
  path : String
  filename : String
  reason : String
deriving DecidableEq

/-- The files `os.walk(root, topdown=True)` actually visits:
excluded directories are pruned from descent, so a file whose relative
path has an excluded *directory* component is never yielded (and hence
never reaches the skipped list either). -/
def walkFiles (root : String) (tree : FsTree) (excluded_dirs : List String) :
    List (String × FsFile) :=
  tree.filter (fun e =>
    (strSplitOnChar '/' (osRelpath e.1 root)).dropLast.all
      (fun d => !(excluded_dirs.contains d)))

/-- Digest reuse from the cache in `build_index`: reuse the cached
`md5` iff the cached `(size, mtime)` equal the observed values.  A
cached digest that is not a string would be stored verbatim by the
reference; `save_index_cache` only writes strings, and the model treats
a non-string digest as a cache miss. -/
def cacheLookupMd5 (cache : Option Jval) (rel : String) (size : Nat) (mtime : Int) :
    Option String :=
  match cache with
  | none => none
  | some c =>
    match jlookup c rel with
    | some cached =>
      if jlookup cached "size" == some (Jval.jnum size) &&
         jlookup cached "mtime" == some (Jval.jnum mtime) then
        match jlookup cached "md5" with
        | some (Jval.jstr m) => some m
        | _ => none
      else none
    | none => none

/-- `build_index` from `file_index.py` on a tree.  `md5fn` abstracts
`compute_md5` applied to the file bytes.  I/O on visited files never
fails in the model, so the per-file `except` arms are not exercised. -/
def build_index (md5fn : String → String) (root : String) (tree : FsTree)
    (excluded_dirs excluded_extensions : List String) (max_file_size_mb : Nat)
    (cache : Option Jval) : FileIndex × List Skipped :=
  (walkFiles root tree excluded_dirs).foldl (fun acc e =>
    let filepath := e.1
    let rel_path := normalize_path (osRelpath filepath root)
    match should_exclude filepath (contentSize e.2.content)
        excluded_dirs excluded_extensions max_file_size_mb with
    | some exclude_reason =>
      (acc.1, acc.2 ++ [{ path := filepath, filename := osBasename rel_path,
                          reason := exclude_reason }])
    | none =>
      let file_size := contentSize e.2.content
      let file_mtime := e.2.mtime
      let md5 :=
        match cacheLookupMd5 cache rel_path file_size file_mtime with
        | some m => m
        | none => md5fn (contentStr e.2.content)
      (acc.1 ++ [{ relative_path := rel_path, md5 := md5,
                   mtime := file_mtime, size := file_size }], acc.2))
    ([], [])

/-- `INDEX_CACHE_FILENAME` from `file_index.py`. -/
def INDEX_CACHE_FILENAME : String := ".backup_index.json"

/-- `get_cache_path` from `file_index.py`. -/
def get_cache_path (dst_root : String) : String :=
  osJoin dst_root INDEX_CACHE_FILENAME

/-- `load_index_cache` from `file_index.py` applied to the content at
the cache path (`none` = the file is absent or unreadable, which raises
`OSError`).  A raw (unparseable) content raises `JSONDecodeError`; both
exceptions are caught and give `None`.  A document that parses to a
non-object raises `AttributeError` on `data.get`, which the reference
does NOT catch: that is the `Except.error` case. -/
def load_index_cache (c : Option Content) : Except String (Option Jval) :=
  match c with
  | none => Except.ok none
  | some (Content.raw _) => Except.ok none
  | some (Content.json j) =>
    if j.isObj then
      if jlookup j "version" == some (Jval.jnum 1) then
        Except.ok (some ((jlookup j "files").getD Jval.jnil))
      else
        Except.ok none
    else
      Except.error "AttributeError: get on non-dict JSON document"

/-- The document written by `save_index_cache` from `file_index.py`
(`created` abstracts `datetime.now().isoformat()`). -/
def save_index_cache_doc (created : String) (index : FileIndex) : Jval :=
  jobjOf
    [("version", Jval.jnum 1),
     ("created", Jval.jstr created),
     ("files", jobjOf ((all_files index).map (fun f =>
        (f.relative_path,
         jobjOf [("md5", Jval.jstr f.md5),
                 ("mtime", Jval.jnum f.mtime),
                 ("size", Jval.jnum f.size)]))))]

/-- `save_index_cache`: write-to-temp plus atomic rename, whose net
effect on the tree is writing the document at the cache path. -/
def save_index_cache (tree : FsTree) (cache_path : String) (created : String)
    (cacheMtime : Int) (index : FileIndex) : FsTree :=
  treeSet tree cache_path { content := Content.json (save_index_cache_doc created index),
                            mtime := cacheMtime }

/-- One verification mismatch record (the `path` / `reason` dict). -/
structure Mismatch where
  path : String
  reason : String
deriving DecidableEq

/-- `verify_mirror` from `sync_engine.py`: re-check every source record
against the destination tree. -/
def verify_mirror (md5fn : String → String) (src_index : FileIndex)
    (dst_root : String) (dstTree : FsTree) : Bool × List Mismatch :=
  let mismatches := (all_files src_index).foldl (fun acc src_file =>
    let dst_path := osJoin dst_root src_file.relative_path
    match treeGet dstTree dst_path with
    | none =>
      acc ++ [{ path := src_file.relative_path,
                reason := "File missing in destination" }]
    | some f =>
      if contentSize f.content ≠ src_file.size then
        acc ++ [{ path := src_file.relative_path,
                  reason := "Size mismatch: source=" ++ toString src_file.size ++
                            ", dest=" ++ toString (contentSize f.content) }]
      else
        let dst_md5 := md5fn (contentStr f.content)
        if dst_md5 ≠ src_file.md5 then
          acc ++ [{ path := src_file.relative_path,
                    reason := "MD5 mismatch: source=" ++ src_file.md5 ++
                              ", dest=" ++ dst_md5 }]
        else acc) []
  (mismatches.isEmpty, mismatches)

/-- Disk-level events of a run, in order of occurrence. -/
inductive Event where
  | moved : String → String → Event
  | copied : String → Event
  | verified : Bool → Event
  | deleted : String → Event
  | cacheSaved : Event
deriving DecidableEq

/-- `SyncResult` counters from `sync_engine.py` (error records elided
to their count). -/
structure SyncResult where
  moved : Nat := 0
  copied : Nat := 0
  deleted : Nat := 0
  skipped : Nat := 0
  errors : Nat := 0
deriving DecidableEq

/-- Phase 2 of `execute_sync_plan`: moves (`shutil.move`). -/
def execMoves (dstTree : FsTree) (items : List SyncItem) :
    FsTree × List Event × Nat × Nat :=
  items.foldl (fun acc item =>
    match treeGet acc.1 (item.move_from.getD "") with
    | some f =>
      (treeSet (treeErase acc.1 (item.move_from.getD "")) item.dst_path f,
       acc.2.1 ++ [Event.moved (item.move_from.getD "") item.dst_path],
       acc.2.2.1 + 1, acc.2.2.2)
    | none => (acc.1, acc.2.1, acc.2.2.1, acc.2.2.2 + 1))
    (dstTree, [], 0, 0)

/-- Phase 3 of `execute_sync_plan`: copies (`shutil.copy2`, which
preserves the modification time). -/
def execCopies (srcTree dstTree : FsTree) (items : List SyncItem) :
    FsTree × List Event × Nat × Nat :=
  items.foldl (fun acc item =>
    match treeGet srcTree (item.src_path.getD "") with
    | some f =>
      (treeSet acc.1 item.dst_path f,
       acc.2.1 ++ [Event.copied item.dst_path],
       acc.2.2.1 + 1, acc.2.2.2)
    | none => (acc.1, acc.2.1, acc.2.2.1, acc.2.2.2 + 1))
    (dstTree, [], 0, 0)

/-- `execute_sync_plan` from `sync_engine.py` (`dry_run` is false on
the only call site that reaches it; directory creation is implicit in
the tree model). -/
def execute_sync_plan (srcTree dstTree : FsTree) (plan : SyncPlan) :
    FsTree × List Event × SyncResult :=
  let mv := execMoves dstTree plan.moves
  let cp := execCopies srcTree mv.1 plan.copies
  (cp.1, mv.2.1 ++ cp.2.1,
   { moved := mv.2.2.1, copied := cp.2.2.1, skipped := plan.skips.length,
     errors := mv.2.2.2 + cp.2.2.2 })

/-- `execute_deletes` from `sync_engine.py`. -/
def execute_deletes (dstTree : FsTree) (plan : SyncPlan) :
    FsTree × List Event × Nat × Nat :=
  plan.deletes.foldl (fun acc item =>
    match treeGet acc.1 item.dst_path with
    | some _ =>
      (treeErase acc.1 item.dst_path, acc.2.1 ++ [Event.deleted item.dst_path],
       acc.2.2.1 + 1, acc.2.2.2)
    | none => (acc.1, acc.2.1, acc.2.2.1, acc.2.2.2 + 1))
    (dstTree, [], 0, 0)

/-- The observable outcome of one `BackupManager.backup_directory`
run. -/
structure RunResult where
  plan : Option SyncPlan
  finalDst : FsTree
  events : List Event
  verify : Option (Bool × List Mismatch)
deriving DecidableEq

/-- `BackupManager.backup_directory` from `backup_utils.py` on tree
models of the two roots.  `created` / `cacheMtime` abstract the wall
clock.  An uncaught exception (only the cache loader can raise one in
the model) is the `Except.error` case, caught by `main` with exit code
1.  `cleanup_empty_dirs` is the identity on a file-map tree. -/
def backup_directory (md5fn : String → String) (created : String) (cacheMtime : Int)
    (srcTree : FsTree) (src dst : String) (dstTree : FsTree)
    (dry_run verify_only : Bool) : Except String RunResult :=
  let src_index := (build_index md5fn src srcTree EXCLUDE_DIRS EXCLUDE_EXTENSIONS
    MAX_FILE_SIZE_MB none).1
  if verify_only then
    let v := verify_mirror md5fn src_index dst dstTree
    Except.ok { plan := none, finalDst := dstTree, events := [Event.verified v.1],
                verify := some v }
  else
    let cache_path := get_cache_path dst
    let loaded : Except String (Option Jval) :=
      match treeGet dstTree cache_path with
      | some f => load_index_cache (some f.content)
      | none => Except.ok none
    match loaded with
    | Except.error e => Except.error e
    | Except.ok dst_cache =>
      let dst_index := (build_index md5fn dst dstTree EXCLUDE_DIRS
        EXCLUDE_EXTENSIONS 999999 dst_cache).1
      let plan := generate_sync_plan src_index dst_index src dst
      if plan.copies.isEmpty && plan.moves.isEmpty && plan.deletes.isEmpty then
        Except.ok { plan := some plan, finalDst := dstTree, events := [],
                    verify := none }
      else if dry_run then
        Except.ok { plan := some plan, finalDst := dstTree, events := [],
                    verify := none }
      else
        let ex := execute_sync_plan srcTree dstTree plan
        let v := verify_mirror md5fn src_index dst ex.1
        if !v.1 then
          Except.ok { plan := some plan, finalDst := ex.1,
                      events := ex.2.1 ++ [Event.verified false], verify := some v }
        else
          let del := execute_deletes ex.1 plan
          let final_build := build_index md5fn dst del.1 EXCLUDE_DIRS
            EXCLUDE_EXTENSIONS 999999 none
          let final := save_index_cache del.1 cache_path created cacheMtime
            final_build.1
          Except.ok { plan := some plan, finalDst := final,
                      events := ex.2.1 ++ [Event.verified true] ++ del.2.1 ++
                        [Event.cacheSaved],
                      verify := some v }

/-- The process exit code produced by `main` in `main.py`: a normal
return exits 0, an uncaught exception is caught and exits 1. -/
def main_exit_code (r : Except String RunResult) : Nat :=
  match r with
  | Except.ok _ => 0
  | Except.error _ => 1

/-- A destination path `p` is consumed ("targeted") by a non-delete
item: as a Skip path, as a Copy destination, or as the path a Move
vacates (`move_from` stores the full destination path). -/
def TargetedBy (dst_root : String) (i : SyncItem) (p : String) : Prop :=
  (i.action = SyncAction.skip ∧ i.dst_rel_path = p) ∨
  (i.action = SyncAction.copy ∧ i.dst_rel_path = p) ∨
  (i.action = SyncAction.move ∧ i.move_from = some (osJoin dst_root p))

instance (dst_root : String) (i : SyncItem) (p : String) :
    Decidable (TargetedBy dst_root i p) := by
  unfold TargetedBy; infer_instance

/-- Whether the per-file filter accepts a visited file. -/
def indexAccepts (excluded_dirs excluded_extensions : List String)
    (max_file_size_mb : Nat) (e : String × FsFile) : Bool :=
  (should_exclude e.1 (contentSize e.2.content) excluded_dirs excluded_extensions
    max_file_size_mb).isNone

/-- The index record `build_index` emits for an accepted file. -/
def indexRec (md5fn : String → String) (root : String) (cache : Option Jval)
    (e : String × FsFile) : FileInfo :=
  let rel_path := normalize_path (osRelpath e.1 root)
  { relative_path := rel_path,
    md5 :=
      match cacheLookupMd5 cache rel_path (contentSize e.2.content) e.2.mtime with
      | some m => m
      | none => md5fn (contentStr e.2.content),
    mtime := e.2.mtime,
    size := contentSize e.2.content }

/-- The skipped-list record `build_index` emits for a rejected file. -/
def skipRec (root : String) (excluded_dirs excluded_extensions : List String)
    (max_file_size_mb : Nat) (e : String × FsFile) : Skipped :=
  { path := e.1,
    filename := osBasename (normalize_path (osRelpath e.1 root)),
    reason := (should_exclude e.1 (contentSize e.2.content) excluded_dirs
      excluded_extensions max_file_size_mb).getD "" }

/-- The mismatch list one source record contributes in `verify_mirror`. -/
def verifyCheck (md5fn : String → String) (dst_root : String) (dstTree : FsTree)
    (src_file : FileInfo) : List Mismatch :=
  match treeGet dstTree (osJoin dst_root src_file.relative_path) with
  | none =>
    [{ path := src_file.relative_path, reason := "File missing in destination" }]
  | some f =>
    if contentSize f.content ≠ src_file.size then
      [{ path := src_file.relative_path,
         reason := "Size mismatch: source=" ++ toString src_file.size ++
                   ", dest=" ++ toString (contentSize f.content) }]
    else if md5fn (contentStr f.content) ≠ src_file.md5 then
      [{ path := src_file.relative_path,
         reason := "MD5 mismatch: source=" ++ src_file.md5 ++
                   ", dest=" ++ md5fn (contentStr f.content) }]
    else []

/-- Whether the destination correctly mirrors one source record:
present at the joined path, equal size, equal digest. -/
def mirrorsRecord (md5fn : String → String) (dst_root : String) (dstTree : FsTree)
    (s : FileInfo) : Bool :=
  match treeGet dstTree (osJoin dst_root s.relative_path) with
  | none => false
  | some f =>
    (contentSize f.content == s.size) && (md5fn (contentStr f.content) == s.md5)

/-! ## Concrete instances (counterexamples and witnesses) -/

def c3SrcTree : FsTree := [("S/a.txt", { content := Content.raw "hi", mtime := 1 })]

def c3Run1 : Except String RunResult :=
  backup_directory id "t1" 10 c3SrcTree "S" "D" [] false false

def c3Dst1 : FsTree :=
  match c3Run1 with
  | Except.ok r => r.finalDst
  | Except.error _ => []

def c3Run2 : Except String RunResult :=
  backup_directory id "t2" 20 c3SrcTree "S" "D" c3Dst1 false false

def c3R2 : RunResult :=
  match c3Run2 with
  | Except.ok r => r
  | Except.error _ => { plan := none, finalDst := [], events := [], verify := none }

def c7SrcTree : FsTree :=
  [("S/a.txt", { content := Content.raw "abc", mtime := 1 }),
   ("S/new.txt", { content := Content.raw "q", mtime := 2 })]

def c7DstTree : FsTree :=
  [("D/a.txt", { content := Content.raw "xyz", mtime := 5 }),
   ("D/.backup_index.json",
    { content := Content.json (jobjOf
        [("version", Jval.jnum 1), ("created", Jval.jstr "t0"),
         ("files", jobjOf [("a.txt", jobjOf
            [("md5", Jval.jstr "abc"), ("mtime", Jval.jnum 5),
             ("size", Jval.jnum 3)])])]),
      mtime := 0 })]

def c7Run : Except String RunResult :=
  backup_directory id "t3" 30 c7SrcTree "S" "D" c7DstTree false false

def c7R : RunResult :=
  match c7Run with
  | Except.ok r => r
  | Except.error _ => { plan := none, finalDst := [], events := [], verify := none }

def c2SrcIndex : FileIndex :=
  [{ relative_path := "a.txt", md5 := "hi", mtime := 1, size := 2 },
   { relative_path := "sub/b.txt", md5 := "bye", mtime := 2, size := 3 }]

def c2DstIndex : FileIndex :=
  [{ relative_path := "a.txt", md5 := "hi", mtime := 1, size := 2 },
   { relative_path := "stale.txt", md5 := "zz", mtime := 3, size := 4 }]

/-- The Delete item the planner emits for `stale.txt` in the concrete
C10 instance. -/
def c2DeleteItem : SyncItem :=
  { action := SyncAction.delete, src_path := none, dst_path := "D/stale.txt",
    src_rel_path := none, dst_rel_path := "stale.txt", move_from := none,
    reason := "Not in source" }

def c3MirrorRec : FileInfo :=
  { relative_path := "a.txt", md5 := "hi", mtime := 1, size := 2 }

def c3CacheRec : FileInfo :=
  { relative_path := ".backup_index.json", md5 := "cc", mtime := 10, size := 5 }

def c4Src : FileIndex :=
  [{ relative_path := "app1/package.json", md5 := "P1", mtime := 0, size := 1 },
   { relative_path := "app2/package.json", md5 := "P2", mtime := 0, size := 1 },
   { relative_path := "app2/.gitignore", md5 := "X", mtime := 0, size := 1 }]

def c4Dst : FileIndex :=
  [{ relative_path := "app1/.gitignore", md5 := "X", mtime := 0, size := 1 }]

def c4G2 : FileInfo :=
  { relative_path := "app2/.gitignore", md5 := "X", mtime := 0, size := 1 }

def c4G1 : FileInfo :=
  { relative_path := "app1/.gitignore", md5 := "X", mtime := 0, size := 1 }

def c8Dst : FileIndex :=
  [{ relative_path := "old/deep/c.txt", md5 := "Q", mtime := 0, size := 1 },
   { relative_path := "old/c.txt", md5 := "Q", mtime := 0, size := 1 },
   { relative_path := "other/d.txt", md5 := "Q", mtime := 0, size := 1 }]

def c8Src : FileInfo :=
  { relative_path := "new/c.txt", md5 := "Q", mtime := 0, size := 1 }

def c5SrcIndex : FileIndex :=
  [{ relative_path := "a.txt", md5 := "abc", mtime := 1, size := 3 },
   { relative_path := "b.txt", md5 := "zz", mtime := 2, size := 2 }]

def c5DstTree : FsTree :=
  [("D/a.txt", { content := Content.raw "abc", mtime := 1 })]

def c9Tree : FsTree :=
  [("S/a.txt", { content := Content.raw "hi", mtime := 1 }),
   ("S/big.bin", { content := Content.raw "0123456789", mtime := 2 })]

/-! ## Helper lemmas -/

theorem strAppend_left_cancel {s t u : String} (h : s ++ t = s ++ u) : t = u := by
  have hd : (s ++ t).data = (s ++ u).data := congrArg String.data h
  simp only [String.data_append] at hd
  exact String.ext (List.append_cancel_left hd)

theorem osJoin_inj {root a b : String} (h : osJoin root a = osJoin root b) : a = b := by
  unfold osJoin at h
  rw [String.append_assoc, String.append_assoc] at h
  exact strAppend_left_cancel (strAppend_left_cancel h)

theorem osRelpath_osJoin (root rel : String) : osRelpath (osJoin root rel) root = rel := by
  unfold osRelpath osJoin
  have h1 : (root ++ "/" ++ rel).toList = (root.toList ++ ['/']) ++ rel.toList := by
    show (root ++ "/" ++ rel).data = (root.data ++ ['/']) ++ rel.data
    rw [String.data_append, String.data_append]
  have h2 : root.length + 1 = (root.toList ++ ['/']).length := by
    rw [List.length_append]
    rfl
  rw [h1, h2, List.drop_left]
  cases rel
  rfl

/-- Generic key-uniqueness counting: in a list whose keys are pairwise
distinct, filtering on the key of a member yields exactly one hit. -/
theorem filter_key_eq_one {α : Type} (key : α → String) :
    ∀ (l : List α), (l.map key).Nodup → ∀ x ∈ l,
      (l.filter (fun y => key y == key x)).length = 1 := by
  intro l
  induction l with
  | nil => intro _ x hx; cases hx
  | cons a l ih =>
    intro hnd x hx
    simp only [List.map_cons, List.nodup_cons] at hnd
    rcases List.mem_cons.mp hx with rfl | hxl
    · have hnone : l.filter (fun y => key y == key x) = [] := by
        apply List.filter_eq_nil_iff.mpr
        intro y hy
        simp only [beq_iff_eq]
        intro hkey
        exact hnd.1 (hkey ▸ List.mem_map_of_mem key hy)
      simp [List.filter_cons, hnone]
    · have hne : ¬(key a == key x) = true := by
        simp only [beq_iff_eq]
        intro hkey
        exact hnd.1 (hkey ▸ List.mem_map_of_mem key hxl)
      simp only [List.filter_cons, hne, if_neg]
      simp only [Bool.false_eq_true, if_false]
      exact ih hnd.2 x hxl

theorem listMinBy_mem (f : FileInfo → Nat) (x : FileInfo) (xs : List FileInfo) :
    listMinBy f x xs ∈ x :: xs := by
  unfold listMinBy
  induction xs generalizing x with
  | nil => simp
  | cons y ys ih =>
    simp only [List.foldl_cons]
    by_cases h : f y < f x
    · simp only [h, if_pos]
      rcases List.mem_cons.mp (ih y) with h2 | h2
      · exact List.mem_cons.mpr (Or.inr (List.mem_cons.mpr (Or.inl h2)))
      · exact List.mem_cons.mpr (Or.inr (List.mem_cons.mpr (Or.inr h2)))
    · simp only [h, if_neg, if_false]
      rcases List.mem_cons.mp (ih x) with h2 | h2
      · exact List.mem_cons.mpr (Or.inl h2)
      · exact List.mem_cons.mpr (Or.inr (List.mem_cons.mpr (Or.inr h2)))

theorem listMinBy_le (f : FileInfo → Nat) (x : FileInfo) (xs : List FileInfo) :
    ∀ c ∈ x :: xs, f (listMinBy f x xs) ≤ f c := by
  unfold listMinBy
  induction xs generalizing x with
  | nil =>
    intro c hc
    simp only [List.mem_singleton] at hc
    simp [hc]
  | cons y ys ih =>
    intro c hc
    simp only [List.foldl_cons]
    rcases List.mem_cons.mp hc with rfl | hc2
    · by_cases h : f y < f c
      · simp only [h, if_pos]
        exact le_of_lt (lt_of_le_of_lt (ih y y (List.mem_cons_self y ys)) h)
      · simp only [h, if_neg, if_false]
        exact ih c c (List.mem_cons_self c ys)
    · rcases List.mem_cons.mp hc2 with rfl | hc3
      · by_cases h : f c < f x
        · simp only [h, if_pos]
          exact ih c c (List.mem_cons_self c ys)
        · simp only [h, if_neg, if_false]
          exact le_trans (ih x x (List.mem_cons_self x ys)) (le_of_not_lt h)
      · by_cases h : f y < f x
        · simp only [h, if_pos]
          exact ih y c (List.mem_cons_of_mem y hc3)
        · simp only [h, if_neg, if_false]
          exact ih x c (List.mem_cons_of_mem x hc3)

theorem findBestMoveCandidate_mem {s : FileInfo} {cands : List FileInfo}
    {sr dr : String} {mc : FileInfo}
    (h : findBestMoveCandidate s cands sr dr = some mc) : mc ∈ cands := by
  unfold findBestMoveCandidate at h
  cases cands with
  | nil => cases h
  | cons x xs =>
    simp only at h
    cases hsame : (x :: xs).filter
        (fun c => osBasename c.relative_path == osBasename s.relative_path) with
    | nil =>
      rw [hsame] at h
      simp only [Option.some.injEq] at h
      exact h ▸ listMinBy_mem _ x xs
    | cons y ys =>
      rw [hsame] at h
      simp only [Option.some.injEq] at h
      have : mc ∈ y :: ys := h ▸ listMinBy_mem _ y ys
      rw [← hsame] at this
      exact List.mem_of_mem_filter this

/-- Case analysis of the per-source-file planner step: the emitted item
always targets the source record's relative path and is never a Delete;
the `used_dst_paths` set grows by the consumed destination path (the
source path for Skip and update-Copy, the vacated candidate path for
Move) and is unchanged for the two Copy cases that consume nothing. -/
theorem planSrcStep_spec (pr acm : RootMap) (dst : FileIndex) (sr dr : String)
    (used : List String) (s : FileInfo) (item : SyncItem) (used2 : List String)
    (h : planSrcStep pr acm dst sr dr used s = (item, used2)) :
    item.dst_rel_path = s.relative_path ∧
    ((item.action = SyncAction.skip ∧ used2 = used ++ [s.relative_path]) ∨
     (item.action = SyncAction.copy ∧ used2 = used ++ [s.relative_path]) ∨
     (item.action = SyncAction.copy ∧ used2 = used ∧
       get_by_path dst s.relative_path = none) ∨
     (∃ mc, mc ∈ dst ∧ get_by_path dst s.relative_path = none ∧
       item.action = SyncAction.move ∧
       item.move_from = some (osJoin dr mc.relative_path) ∧
       used2 = used ++ [mc.relative_path])) := by
  unfold planSrcStep at h
  simp only at h
  split at h
  case h_1 d hdst =>
    split at h
    · cases h
      exact ⟨rfl, Or.inl ⟨rfl, rfl⟩⟩
    · cases h
      exact ⟨rfl, Or.inr (Or.inl ⟨rfl, rfl⟩)⟩
  case h_2 hdst =>
    split at h
    case h_1 mc hmc =>
      have hmem : mc ∈ dst := by
        have := findBestMoveCandidate_mem hmc
        exact List.mem_of_mem_filter (List.mem_of_mem_filter this)
      split at h
      · cases h
        exact ⟨rfl, Or.inr (Or.inr (Or.inl ⟨rfl, rfl, hdst⟩))⟩
      · cases h
        exact ⟨rfl, Or.inr (Or.inr (Or.inr ⟨mc, hmem, hdst, rfl, rfl, rfl⟩))⟩
    case h_2 hmc =>
      cases h
      exact ⟨rfl, Or.inr (Or.inr (Or.inl ⟨rfl, rfl, hdst⟩))⟩

theorem get_by_path_eq_none_iff {idx : FileIndex} {p : String} :
    get_by_path idx p = none ↔ ∀ d ∈ idx, d.relative_path ≠ p := by
  unfold get_by_path
  rw [List.find?_eq_none]
  simp

theorem get_by_path_some_mem {idx : FileIndex} {p : String} {x : FileInfo}
    (h : get_by_path idx p = some x) : x ∈ idx ∧ x.relative_path = p := by
  refine ⟨List.mem_of_find?_eq_some h, ?_⟩
  have := List.find?_some h
  simpa using this

theorem get_by_path_isSome_of_mem {idx : FileIndex} {p : String} {d : FileInfo}
    (hd : d ∈ idx) (hp : d.relative_path = p) : ∃ x, get_by_path idx p = some x := by
  cases hx : get_by_path idx p with
  | some x => exact ⟨x, rfl⟩
  | none => exact absurd hp (get_by_path_eq_none_iff.mp hx d hd)

theorem planSources_forall2 (pr acm : RootMap) (dst : FileIndex) (sr dr : String) :
    ∀ (src : List FileInfo) (used : List String) (items : List SyncItem)
      (used2 : List String),
      planSources pr acm dst sr dr src used = (items, used2) →
      List.Forall₂ (fun (i : SyncItem) (s : FileInfo) =>
        i.dst_rel_path = s.relative_path ∧ i.action ≠ SyncAction.delete) items src := by
  intro src
  induction src with
  | nil =>
    intro used items used2 h
    simp only [planSources] at h
    cases h
    exact List.Forall₂.nil
  | cons s rest ih =>
    intro used items used2 h
    simp only [planSources] at h
    rcases hstep : planSrcStep pr acm dst sr dr used s with ⟨item, u1⟩
    rw [hstep] at h
    rcases hrec : planSources pr acm dst sr dr rest u1 with ⟨items1, used3⟩
    rw [hrec] at h
    cases h
    have spec := planSrcStep_spec pr acm dst sr dr used s _ _ hstep
    refine List.Forall₂.cons ⟨spec.1, ?_⟩ (ih _ _ _ hrec)
    rcases spec.2 with ⟨ha, -⟩ | ⟨ha, -⟩ | ⟨ha, -, -⟩ | ⟨mc, -, -, ha, -, -⟩ <;>
      simp [ha]

theorem planSources_used_grow (pr acm : RootMap) (dst : FileIndex) (sr dr : String) :
    ∀ (src : List FileInfo) (used : List String) (items : List SyncItem)
      (used2 : List String),
      planSources pr acm dst sr dr src used = (items, used2) →
      ∃ t, used2 = used ++ t := by
  intro src
  induction src with
  | nil =>
    intro used items used2 h
    simp only [planSources] at h
    cases h
    exact ⟨[], by simp⟩
  | cons s rest ih =>
    intro used items used2 h
    simp only [planSources] at h
    rcases hstep : planSrcStep pr acm dst sr dr used s with ⟨item, u1⟩
    rw [hstep] at h
    rcases hrec : planSources pr acm dst sr dr rest u1 with ⟨items1, used3⟩
    rw [hrec] at h
    cases h
    have spec := planSrcStep_spec pr acm dst sr dr used s _ _ hstep
    obtain ⟨t, ht⟩ := ih _ _ _ hrec
    rcases spec.2 with ⟨-, hu⟩ | ⟨-, hu⟩ | ⟨-, hu, -⟩ | ⟨mc, -, -, -, -, hu⟩ <;>
      rw [hu] at ht
    · exact ⟨[s.relative_path] ++ t, by simpa using ht⟩
    · exact ⟨[s.relative_path] ++ t, by simpa using ht⟩
    · exact ⟨t, ht⟩
    · exact ⟨[mc.relative_path] ++ t, by simpa using ht⟩

theorem planSources_mem_used_mono (pr acm : RootMap) (dst : FileIndex) (sr dr : String)
    {src : List FileInfo} {used : List String} {items : List SyncItem}
    {used2 : List String} {p : String}
    (h : planSources pr acm dst sr dr src used = (items, used2)) (hp : p ∈ used) :
    p ∈ used2 := by
  obtain ⟨t, ht⟩ := planSources_used_grow pr acm dst sr dr src used items used2 h
  rw [ht]
  exact List.mem_append_left t hp

theorem planSources_used_new (pr acm : RootMap) (dst : FileIndex) (sr dr : String) :
    ∀ (src : List FileInfo) (used : List String) (items : List SyncItem)
      (used2 : List String),
      planSources pr acm dst sr dr src used = (items, used2) →
      ∀ p ∈ used2, p ∈ used ∨ ∃ i ∈ items, TargetedBy dr i p := by
  intro src
  induction src with
  | nil =>
    intro used items used2 h p hp
    simp only [planSources] at h
    cases h
    exact Or.inl hp
  | cons s rest ih =>
    intro used items used2 h p hp
    simp only [planSources] at h
    rcases hstep : planSrcStep pr acm dst sr dr used s with ⟨item, u1⟩
    rw [hstep] at h
    rcases hrec : planSources pr acm dst sr dr rest u1 with ⟨items1, used3⟩
    rw [hrec] at h
    cases h
    have spec := planSrcStep_spec pr acm dst sr dr used s _ _ hstep
    rcases ih _ _ _ hrec p hp with hp1 | ⟨i, hi, htarget⟩
    · rcases spec.2 with ⟨ha, hu⟩ | ⟨ha, hu⟩ | ⟨ha, hu, -⟩ | ⟨mc, -, -, ha, hmf, hu⟩ <;>
        rw [hu] at hp1
      · rcases List.mem_append.mp hp1 with h2 | h2
        · exact Or.inl h2
        · refine Or.inr ⟨item, List.mem_cons_self _ _, Or.inl ⟨ha, ?_⟩⟩
          rw [spec.1]
          exact (by simpa using h2 : p = s.relative_path).symm
      · rcases List.mem_append.mp hp1 with h2 | h2
        · exact Or.inl h2
        · refine Or.inr ⟨item, List.mem_cons_self _ _, Or.inr (Or.inl ⟨ha, ?_⟩)⟩
          rw [spec.1]
          exact (by simpa using h2 : p = s.relative_path).symm
      · exact Or.inl hp1
      · rcases List.mem_append.mp hp1 with h2 | h2
        · exact Or.inl h2
        · refine Or.inr ⟨item, List.mem_cons_self _ _, Or.inr (Or.inr ⟨ha, ?_⟩)⟩
          rw [hmf]
          have hpm : p = mc.relative_path := by simpa using h2
          rw [hpm]
    · exact Or.inr ⟨i, List.mem_cons_of_mem _ hi, htarget⟩

theorem planSources_target_used (pr acm : RootMap) (dst : FileIndex) (sr dr : String) :
    ∀ (src : List FileInfo) (used : List String) (items : List SyncItem)
      (used2 : List String),
      planSources pr acm dst sr dr src used = (items, used2) →
      ∀ i ∈ items, ∀ p, TargetedBy dr i p →
        p ∈ used2 ∨ ∀ d ∈ dst, d.relative_path ≠ p := by
  intro src
  induction src with
  | nil =>
    intro used items used2 h i hi
    simp only [planSources] at h
    cases h
    cases hi
  | cons s rest ih =>
    intro used items used2 h i hi p htarget
    simp only [planSources] at h
    rcases hstep : planSrcStep pr acm dst sr dr used s with ⟨item, u1⟩
    rw [hstep] at h
    rcases hrec : planSources pr acm dst sr dr rest u1 with ⟨items1, used3⟩
    rw [hrec] at h
    cases h
    have spec := planSrcStep_spec pr acm dst sr dr used s _ _ hstep
    rcases List.mem_cons.mp hi with rfl | hi2
    · rcases spec.2 with ⟨ha, hu⟩ | ⟨ha, hu⟩ | ⟨ha, hu, hnone⟩ | ⟨mc, -, hnone, ha, hmf, hu⟩
      · rcases htarget with ⟨-, hrel⟩ | ⟨hcopy, -⟩ | ⟨hmove, -⟩
        · left
          refine planSources_mem_used_mono pr acm dst sr dr hrec ?_
          rw [hu, ← hrel, spec.1]
          simp
        · rw [ha] at hcopy; cases hcopy
        · rw [ha] at hmove; cases hmove
      · rcases htarget with ⟨hskip, -⟩ | ⟨-, hrel⟩ | ⟨hmove, -⟩
        · rw [ha] at hskip; cases hskip
        · left
          refine planSources_mem_used_mono pr acm dst sr dr hrec ?_
          rw [hu, ← hrel, spec.1]
          simp
        · rw [ha] at hmove; cases hmove
      · rcases htarget with ⟨hskip, -⟩ | ⟨-, hrel⟩ | ⟨hmove, -⟩
        · rw [ha] at hskip; cases hskip
        · right
          intro d hd
          rw [← hrel, spec.1]
          exact get_by_path_eq_none_iff.mp hnone d hd
        · rw [ha] at hmove; cases hmove
      · rcases htarget with ⟨hskip, -⟩ | ⟨hcopy, -⟩ | ⟨-, hmf2⟩
        · rw [ha] at hskip; cases hskip
        · rw [ha] at hcopy; cases hcopy
        · left
          rw [hmf] at hmf2
          have hpm : mc.relative_path = p :=
            osJoin_inj (Option.some_injective _ hmf2)
          refine planSources_mem_used_mono pr acm dst sr dr hrec ?_
          rw [hu, ← hpm]
          simp
    · exact ih _ _ _ hrec i hi2 p htarget

theorem planSources_mem_used_of (pr acm : RootMap) (dst : FileIndex) (sr dr : String) :
    ∀ (src : List FileInfo) (used : List String) (items : List SyncItem)
      (used2 : List String),
      planSources pr acm dst sr dr src used = (items, used2) →
      ∀ p, (∃ s0 ∈ src, s0.relative_path = p) → (∃ d ∈ dst, d.relative_path = p) →
        p ∈ used2 := by
  intro src
  induction src with
  | nil =>
    intro used items used2 h p hsrc hdst
    obtain ⟨s0, hs0, -⟩ := hsrc
    cases hs0
  | cons s rest ih =>
    intro used items used2 h p hsrc hdst
    simp only [planSources] at h
    rcases hstep : planSrcStep pr acm dst sr dr used s with ⟨item, u1⟩
    rw [hstep] at h
    rcases hrec : planSources pr acm dst sr dr rest u1 with ⟨items1, used3⟩
    rw [hrec] at h
    cases h
    have spec := planSrcStep_spec pr acm dst sr dr used s _ _ hstep
    obtain ⟨s0, hs0, hs0p⟩ := hsrc
    by_cases hsp : s.relative_path = p
    · obtain ⟨d, hd, hdp⟩ := hdst
      rcases spec.2 with ⟨-, hu⟩ | ⟨-, hu⟩ | ⟨-, -, hnone⟩ | ⟨mc, -, hnone, -, -, -⟩
      · refine planSources_mem_used_mono pr acm dst sr dr hrec ?_
        rw [hu, hsp]
        simp
      · refine planSources_mem_used_mono pr acm dst sr dr hrec ?_
        rw [hu, hsp]
        simp
      · exact absurd hdp (get_by_path_eq_none_iff.mp (hsp ▸ hnone) d hd)
      · exact absurd hdp (get_by_path_eq_none_iff.mp (hsp ▸ hnone) d hd)
    · rcases List.mem_cons.mp hs0 with rfl | hs0rest
      · exact absurd hs0p hsp
      · exact ih _ _ _ hrec p ⟨s0, hs0rest, hs0p⟩ hdst

theorem planDeleteItems_mem_spec {src dst : FileIndex} {dr : String}
    {used : List String} {i : SyncItem} (h : i ∈ planDeleteItems src dst dr used) :
    i.action = SyncAction.delete ∧ i.move_from = none ∧
    ∃ d ∈ dst, d.relative_path = i.dst_rel_path ∧
      used.contains d.relative_path = false ∧
      get_by_path src d.relative_path = none := by
  unfold planDeleteItems at h
  obtain ⟨d, hd, rfl⟩ := List.mem_map.mp h
  have hf := List.mem_filter.mp hd
  have hcond := hf.2
  simp only [Bool.and_eq_true, Bool.not_eq_true', Option.isNone_iff_eq_none] at hcond
  exact ⟨rfl, rfl, d, hf.1, rfl, hcond.1, hcond.2⟩

theorem planDeleteItems_mem_of {src dst : FileIndex} {dr : String}
    {used : List String} {d : FileInfo} (hd : d ∈ dst)
    (hused : used.contains d.relative_path = false)
    (hnone : get_by_path src d.relative_path = none) :
    ∃ i ∈ planDeleteItems src dst dr used,
      i.action = SyncAction.delete ∧ i.dst_rel_path = d.relative_path := by
  refine ⟨_, List.mem_map_of_mem _ (List.mem_filter.mpr ⟨hd, ?_⟩), rfl, rfl⟩
  simp only [Bool.and_eq_true, Bool.not_eq_true', Option.isNone_iff_eq_none]
  exact ⟨hused, hnone⟩

theorem planDeleteItems_paths_nodup {src dst : FileIndex} {dr : String}
    {used : List String} (hd : PathsNodup dst) :
    ((planDeleteItems src dst dr used).map (fun i => i.dst_rel_path)).Nodup := by
  unfold planDeleteItems
  rw [List.map_map]
  have : ((all_files dst).filter (fun d =>
      !(used.contains d.relative_path) &&
      (get_by_path src d.relative_path).isNone)).map (fun d => d.relative_path)
      |>.Sublist ((all_files dst).map (fun d => d.relative_path)) :=
    List.Sublist.map _ (List.filter_sublist _)
  exact (hd.sublist this)

/-- Pairwise-related lists have equal filtered lengths for predicates
the relation identifies. -/
theorem forall2_filter_length {R : SyncItem → FileInfo → Prop} :
    ∀ {items : List SyncItem} {src : List FileInfo}, List.Forall₂ R items src →
      ∀ (p : SyncItem → Bool) (q : FileInfo → Bool),
        (∀ i s, R i s → p i = q s) →
        (items.filter p).length = (src.filter q).length := by
  intro items src h
  induction h with
  | nil => intro p q hpq; rfl
  | @cons i s items2 src2 hr htail ih =>
    intro p q hpq
    simp only [List.filter_cons]
    rw [hpq _ _ hr]
    by_cases hq : q s = true
    · simp only [hq, if_pos, List.length_cons]
      rw [ih p q hpq]
    · simp only [hq, if_neg, if_false]
      exact ih p q hpq

/-- C2: plan soundness.  Every source record is targeted by exactly one
non-Delete action; every destination record is either consumed (as a
Skip path, a Copy destination, or a Move's vacated path) or named by a
Delete action. -/
theorem generate_sync_plan_soundness (src dst : FileIndex) (sr dr : String)
    (hs : PathsNodup src) :
    (∀ s ∈ src, ((generate_sync_plan src dst sr dr).items.filter
        (fun i => i.action != SyncAction.delete &&
                  i.dst_rel_path == s.relative_path)).length = 1) ∧
    (∀ d ∈ dst,
      (∃ i ∈ (generate_sync_plan src dst sr dr).items,
        TargetedBy dr i d.relative_path) ∨
      (∃ i ∈ (generate_sync_plan src dst sr dr).items,
        i.action = SyncAction.delete ∧ i.dst_rel_path = d.relative_path)) := by
  rcases hfold : planSources (detect_project_roots src)
      (build_always_copy_map (detect_project_roots src)) dst sr dr src [] with
    ⟨srcItems, usedF⟩
  have hplan : (generate_sync_plan src dst sr dr).items =
      srcItems ++ planDeleteItems src dst dr usedF := by
    simp only [generate_sync_plan, all_files]
    rw [hfold]
  constructor
  · intro s hs0
    rw [hplan, List.filter_append, List.length_append]
    have hdel : (planDeleteItems src dst dr usedF).filter
        (fun i => i.action != SyncAction.delete &&
                  i.dst_rel_path == s.relative_path) = [] := by
      apply List.filter_eq_nil_iff.mpr
      intro i hi
      have hact := (planDeleteItems_mem_spec hi).1
      simp [hact]
    have hsrc := forall2_filter_length
      (planSources_forall2 (detect_project_roots src)
        (build_always_copy_map (detect_project_roots src)) dst sr dr src [] srcItems
        usedF hfold)
      (fun i => i.action != SyncAction.delete && i.dst_rel_path == s.relative_path)
      (fun s0 => s0.relative_path == s.relative_path)
      (by
        intro i s0 hR
        rcases hR with ⟨h1, h2⟩
        simp [h1, bne_iff_ne.mpr h2])
    rw [hdel, hsrc]
    simp only [List.length_nil, Nat.add_zero]
    exact filter_key_eq_one (fun f => f.relative_path) src hs s hs0
  · intro d hd0
    by_cases hmem : d.relative_path ∈ usedF
    · rcases planSources_used_new (detect_project_roots src)
          (build_always_copy_map (detect_project_roots src)) dst sr dr src [] srcItems
          usedF hfold d.relative_path hmem with habs | ⟨i, hi, ht⟩
      · cases habs
      · exact Or.inl ⟨i, by rw [hplan]; exact List.mem_append_left _ hi, ht⟩
    · have hnone : get_by_path src d.relative_path = none := by
        apply get_by_path_eq_none_iff.mpr
        intro s0 hs0 hcontra
        exact hmem (planSources_mem_used_of (detect_project_roots src)
          (build_always_copy_map (detect_project_roots src)) dst sr dr src [] srcItems
          usedF hfold d.relative_path ⟨s0, hs0, hcontra⟩ ⟨d, hd0, rfl⟩)
      have husedb : usedF.contains d.relative_path = false := by
        rw [← Bool.not_eq_true]
        simpa using hmem
      obtain ⟨i, hi, hact, hrel⟩ :=
        @planDeleteItems_mem_of src dst dr usedF d hd0 husedb hnone
      exact Or.inr ⟨i, by rw [hplan]; exact List.mem_append_right _ hi, hact, hrel⟩

theorem forall2_mem_left {α β : Type} {R : α → β → Prop} :
    ∀ {l1 : List α} {l2 : List β}, List.Forall₂ R l1 l2 →
      ∀ x ∈ l1, ∃ y ∈ l2, R x y := by
  intro l1 l2 h
  induction h with
  | nil => intro x hx; cases hx
  | @cons x0 y0 l1b l2b hr htail ih =>
    intro x hx
    rcases List.mem_cons.mp hx with rfl | hx2
    · exact ⟨y0, List.mem_cons_self _ _, hr⟩
    · obtain ⟨y1, hy1, hr1⟩ := ih x hx2
      exact ⟨y1, List.mem_cons_of_mem _ hy1, hr1⟩

theorem forall2_mem_right {α β : Type} {R : α → β → Prop} :
    ∀ {l1 : List α} {l2 : List β}, List.Forall₂ R l1 l2 →
      ∀ y ∈ l2, ∃ x ∈ l1, R x y := by
  intro l1 l2 h
  induction h with
  | nil => intro y hy; cases hy
  | @cons x0 y0 l1b l2b hr htail ih =>
    intro y hy
    rcases List.mem_cons.mp hy with rfl | hy2
    · exact ⟨x0, List.mem_cons_self _ _, hr⟩
    · obtain ⟨x1, hx1, hr1⟩ := ih y hy2
      exact ⟨x1, List.mem_cons_of_mem _ hx1, hr1⟩

/-- C10: Delete actions are safe.  A Delete never names a source path;
it names a destination path that no Skip, Copy, or Move consumes; and
each destination path is deleted at most once. -/
theorem generate_sync_plan_delete_safety (src dst : FileIndex) (sr dr : String)
    (hd : PathsNodup dst) :
    ∀ i ∈ (generate_sync_plan src dst sr dr).items, i.action = SyncAction.delete →
      (∀ s ∈ src, s.relative_path ≠ i.dst_rel_path) ∧
      (∃ d ∈ dst, d.relative_path = i.dst_rel_path) ∧
      (∀ j ∈ (generate_sync_plan src dst sr dr).items,
        ¬ TargetedBy dr j i.dst_rel_path) ∧
      ((generate_sync_plan src dst sr dr).items.filter
        (fun j => j.action == SyncAction.delete &&
                  j.dst_rel_path == i.dst_rel_path)).length = 1 := by
  rcases hfold : planSources (detect_project_roots src)
      (build_always_copy_map (detect_project_roots src)) dst sr dr src [] with
    ⟨srcItems, usedF⟩
  have hplan : (generate_sync_plan src dst sr dr).items =
      srcItems ++ planDeleteItems src dst dr usedF := by
    simp only [generate_sync_plan, all_files]
    rw [hfold]
  have hf2 := planSources_forall2 (detect_project_roots src)
    (build_always_copy_map (detect_project_roots src)) dst sr dr src [] srcItems
    usedF hfold
  intro i hi hact
  rw [hplan] at hi
  rcases List.mem_append.mp hi with hisrc | hidel
  · obtain ⟨s0, -, -, hne⟩ := forall2_mem_left hf2 i hisrc
    exact absurd hact hne
  obtain ⟨-, -, d, hd0, hrel, husedb, hnone⟩ := planDeleteItems_mem_spec hidel
  have hnotused : i.dst_rel_path ∉ usedF := by
    rw [← hrel]
    simpa using husedb
  refine ⟨?_, ⟨d, hd0, hrel⟩, ?_, ?_⟩
  · intro s hs0 heq
    exact get_by_path_eq_none_iff.mp hnone s hs0 (heq.trans hrel.symm)
  · intro j hj ht
    rw [hplan] at hj
    rcases List.mem_append.mp hj with hjsrc | hjdel
    · rcases planSources_target_used (detect_project_roots src)
          (build_always_copy_map (detect_project_roots src)) dst sr dr src [] srcItems
          usedF hfold j hjsrc i.dst_rel_path ht with hmem | hnot
      · exact hnotused hmem
      · exact hnot d hd0 hrel
    · have hjact := (planDeleteItems_mem_spec hjdel).1
      rcases ht with ⟨hskip, -⟩ | ⟨hcopy, -⟩ | ⟨hmove, -⟩
      · rw [hjact] at hskip; cases hskip
      · rw [hjact] at hcopy; cases hcopy
      · rw [hjact] at hmove; cases hmove
  · rw [hplan, List.filter_append, List.length_append]
    have hsrcnil : srcItems.filter
        (fun j => j.action == SyncAction.delete &&
                  j.dst_rel_path == i.dst_rel_path) = [] := by
      apply List.filter_eq_nil_iff.mpr
      intro j hj
      obtain ⟨s0, -, -, hne⟩ := forall2_mem_left hf2 j hj
      simp [beq_eq_false_iff_ne.mpr hne]
    have hcongr : (planDeleteItems src dst dr usedF).filter
        (fun j => j.action == SyncAction.delete &&
                  j.dst_rel_path == i.dst_rel_path) =
        (planDeleteItems src dst dr usedF).filter
        (fun j => j.dst_rel_path == i.dst_rel_path) := by
      apply List.filter_congr
      intro j hj
      have hjact := (planDeleteItems_mem_spec hj).1
      simp [hjact]
    rw [hsrcnil, hcongr]
    simp only [List.length_nil, Nat.zero_add]
    exact filter_key_eq_one (fun j => j.dst_rel_path) _
      (planDeleteItems_paths_nodup hd) i hidel

/-- When the destination holds a record at the source path with the
same digest, the planner step emits exactly the Skip item. -/
theorem planSrcStep_skip {pr acm : RootMap} {dst : FileIndex} {sr dr : String}
    {used : List String} {s d : FileInfo}
    (hdst : get_by_path dst s.relative_path = some d) (hmd5 : d.md5 = s.md5) :
    planSrcStep pr acm dst sr dr used s =
      ({ action := SyncAction.skip, src_path := some (osJoin sr s.relative_path),
         dst_path := osJoin dr s.relative_path,
         src_rel_path := some s.relative_path,
         dst_rel_path := s.relative_path, move_from := none,
         reason := "Up-to-date" },
       used ++ [s.relative_path]) := by
  unfold planSrcStep
  simp only [hdst, hmd5]
  simp

theorem planSources_all_skip (pr acm : RootMap) (dst : FileIndex) (sr dr : String) :
    ∀ (src : List FileInfo) (used : List String),
      (∀ s ∈ src, ∃ d, get_by_path dst s.relative_path = some d ∧ d.md5 = s.md5) →
      ∀ items used2, planSources pr acm dst sr dr src used = (items, used2) →
        (∀ i ∈ items, i.action = SyncAction.skip) ∧
        used2 = used ++ src.map (fun s => s.relative_path) := by
  intro src
  induction src with
  | nil =>
    intro used hmirror items used2 h
    simp only [planSources] at h
    cases h
    exact ⟨fun i hi => absurd hi (List.not_mem_nil i), by simp⟩
  | cons s rest ih =>
    intro used hmirror items used2 h
    simp only [planSources] at h
    obtain ⟨d, hdst, hmd5⟩ := hmirror s (List.mem_cons_self _ _)
    rw [planSrcStep_skip hdst hmd5] at h
    rcases hrec : planSources pr acm dst sr dr rest (used ++ [s.relative_path]) with
      ⟨items1, used3⟩
    rw [hrec] at h
    cases h
    obtain ⟨hallskip, hused⟩ := ih (used ++ [s.relative_path])
      (fun s0 hs0 => hmirror s0 (List.mem_cons_of_mem _ hs0)) items1 used3 hrec
    constructor
    · intro i hi
      rcases List.mem_cons.mp hi with rfl | hi2
      · rfl
      · exact hallskip i hi2
    · rw [hused]
      simp

/-- C3 (amended, planner level): when the destination index consists of
records matching every source record by path and digest plus the cache
record written by the previous run, the second run's plan is all Skips
except for a single Delete naming the cache file, which is not excluded
from destination indexing. -/
theorem second_run_plan_shape
    (src dstMirror : FileIndex) (cacheRec : FileInfo) (sr dr : String)
    (hpair : List.Forall₂ (fun (s d : FileInfo) =>
      d.relative_path = s.relative_path ∧ d.md5 = s.md5) src dstMirror)
    (hcache : cacheRec.relative_path = INDEX_CACHE_FILENAME)
    (hnotin : ∀ s ∈ src, s.relative_path ≠ INDEX_CACHE_FILENAME)
    (hd : PathsNodup (dstMirror ++ [cacheRec])) :
    (generate_sync_plan src (dstMirror ++ [cacheRec]) sr dr).copies = [] ∧
    (generate_sync_plan src (dstMirror ++ [cacheRec]) sr dr).moves = [] ∧
    (generate_sync_plan src (dstMirror ++ [cacheRec]) sr dr).skips.length =
      src.length ∧
    (generate_sync_plan src (dstMirror ++ [cacheRec]) sr dr).deletes.map
      (fun i => i.dst_rel_path) = [INDEX_CACHE_FILENAME] := by
  have h1 : ∀ s ∈ src, ∃ d, get_by_path (dstMirror ++ [cacheRec]) s.relative_path =
      some d ∧ d.md5 = s.md5 := by
    intro s hs
    obtain ⟨d0, hd0, hrel0, hmd50⟩ := forall2_mem_left hpair s hs
    obtain ⟨x, hx⟩ := get_by_path_isSome_of_mem
      (List.mem_append_left [cacheRec] hd0) hrel0
    have hxm := get_by_path_some_mem hx
    have hxd : x = d0 := List.inj_on_of_nodup_map hd hxm.1
      (List.mem_append_left [cacheRec] hd0) (by rw [hxm.2, hrel0])
    exact ⟨x, hx, by rw [hxd]; exact hmd50⟩
  rcases hfold : planSources (detect_project_roots src)
      (build_always_copy_map (detect_project_roots src))
      (dstMirror ++ [cacheRec]) sr dr src [] with ⟨srcItems, usedF⟩
  obtain ⟨hallskip, husedF⟩ := planSources_all_skip (detect_project_roots src)
    (build_always_copy_map (detect_project_roots src))
    (dstMirror ++ [cacheRec]) sr dr src [] h1 srcItems usedF hfold
  rw [List.nil_append] at husedF
  have hplan : (generate_sync_plan src (dstMirror ++ [cacheRec]) sr dr).items =
      srcItems ++ planDeleteItems src (dstMirror ++ [cacheRec]) dr usedF := by
    simp only [generate_sync_plan, all_files]
    rw [hfold]
  have hcachenotused : usedF.contains cacheRec.relative_path = false := by
    rw [← Bool.not_eq_true]
    simp only [husedF, hcache, List.contains_iff_exists_mem_beq]
    push_neg
    intro a ha
    obtain ⟨s0, hs0, rfl⟩ := List.mem_map.mp ha
    simpa using (Ne.symm (hnotin s0 hs0))
  have hcachenone : get_by_path src cacheRec.relative_path = none := by
    apply get_by_path_eq_none_iff.mpr
    intro s0 hs0
    rw [hcache]
    exact hnotin s0 hs0
  have hdel : planDeleteItems src (dstMirror ++ [cacheRec]) dr usedF =
      [{ action := SyncAction.delete, src_path := none,
         dst_path := osJoin dr cacheRec.relative_path,
         src_rel_path := none, dst_rel_path := cacheRec.relative_path,
         reason := "Not in source" }] := by
    unfold planDeleteItems
    have hmirrorfilter : dstMirror.filter (fun d =>
        !(usedF.contains d.relative_path) &&
        (get_by_path src d.relative_path).isNone) = [] := by
      apply List.filter_eq_nil_iff.mpr
      intro d hdm
      obtain ⟨s0, hs0, hrel0, -⟩ := forall2_mem_right hpair d hdm
      have hct : usedF.contains d.relative_path = true := by
        rw [husedF, hrel0]
        exact List.contains_iff_exists_mem_beq.mpr
          ⟨s0.relative_path, List.mem_map_of_mem _ hs0, by simp⟩
      simp only [hct, Bool.not_true, Bool.false_and]
      simp
    simp only [all_files, List.filter_append, hmirrorfilter, List.nil_append,
      List.filter_cons, hcachenotused, hcachenone]
    simp
  refine ⟨?_, ?_, ?_, ?_⟩
  · unfold SyncPlan.copies
    rw [hplan, List.filter_append]
    have hsrcnil : srcItems.filter (fun i => i.action == SyncAction.copy) = [] := by
      apply List.filter_eq_nil_iff.mpr
      intro i hi
      simp [hallskip i hi]
    have hdelnil : (planDeleteItems src (dstMirror ++ [cacheRec]) dr usedF).filter
        (fun i => i.action == SyncAction.copy) = [] := by
      rw [hdel]
      rfl
    rw [hsrcnil, hdelnil]
    rfl
  · unfold SyncPlan.moves
    rw [hplan, List.filter_append]
    have hsrcnil : srcItems.filter (fun i => i.action == SyncAction.move) = [] := by
      apply List.filter_eq_nil_iff.mpr
      intro i hi
      simp [hallskip i hi]
    have hdelnil : (planDeleteItems src (dstMirror ++ [cacheRec]) dr usedF).filter
        (fun i => i.action == SyncAction.move) = [] := by
      rw [hdel]
      rfl
    rw [hsrcnil, hdelnil]
    rfl
  · unfold SyncPlan.skips
    rw [hplan, List.filter_append]
    have hsrcall : srcItems.filter (fun i => i.action == SyncAction.skip) =
        srcItems := by
      apply List.filter_eq_self.mpr
      intro i hi
      simp [hallskip i hi]
    have hdelnil : (planDeleteItems src (dstMirror ++ [cacheRec]) dr usedF).filter
        (fun i => i.action == SyncAction.skip) = [] := by
      rw [hdel]
      rfl
    rw [hsrcall, hdelnil, List.append_nil]
    exact (planSources_forall2 (detect_project_roots src)
      (build_always_copy_map (detect_project_roots src))
      (dstMirror ++ [cacheRec]) sr dr src [] srcItems usedF hfold).length_eq
  · unfold SyncPlan.deletes
    rw [hplan, List.filter_append]
    have hsrcnil : srcItems.filter (fun i => i.action == SyncAction.delete) = [] := by
      apply List.filter_eq_nil_iff.mpr
      intro i hi
      simp [hallskip i hi]
    rw [hsrcnil, hdel, List.nil_append]
    simp [hcache]

theorem planSrcStep_empty_dst (pr acm : RootMap) (sr dr : String)
    (used : List String) (s : FileInfo) :
    planSrcStep pr acm [] sr dr used s =
      ({ action := SyncAction.copy, src_path := some (osJoin sr s.relative_path),
         dst_path := osJoin dr s.relative_path,
         src_rel_path := some s.relative_path,
         dst_rel_path := s.relative_path, move_from := none,
         reason := "New file" }, used) := rfl

theorem planSources_empty_dst (pr acm : RootMap) (sr dr : String) :
    ∀ (src : List FileInfo) (used : List String),
      planSources pr acm [] sr dr src used =
        (src.map (fun s =>
          { action := SyncAction.copy, src_path := some (osJoin sr s.relative_path),
            dst_path := osJoin dr s.relative_path,
            src_rel_path := some s.relative_path,
            dst_rel_path := s.relative_path, move_from := none,
            reason := "New file" }), used) := by
  intro src
  induction src with
  | nil => intro used; rfl
  | cons s rest ih =>
    intro used
    simp only [planSources, planSrcStep_empty_dst, ih, List.map_cons]

/-- C4: cross-project boilerplate is copied, never moved.  First
conjunct: whenever the planner step has found a content-identical move
candidate for a source file whose path is in the always-copy map and
whose project root differs from the candidate's, the emitted action is
a Copy (in particular not a Move).  Second conjunct: against an empty
destination the plan consists of one Copy per source record and no
Move, Skip or Delete at all. -/
theorem boilerplate_protection :
    (∀ (pr acm : RootMap) (dst : FileIndex) (sr dr : String) (used : List String)
       (s mc : FileInfo),
      get_by_path dst s.relative_path = none →
      findBestMoveCandidate s ((get_by_md5 dst s.md5).filter
        (fun c => !(used.contains c.relative_path))) sr dr = some mc →
      rootMapHasKey acm s.relative_path = true →
      get_project_root s.relative_path pr ≠ get_project_root mc.relative_path pr →
      (planSrcStep pr acm dst sr dr used s).1.action = SyncAction.copy ∧
      (planSrcStep pr acm dst sr dr used s).1.action ≠ SyncAction.move) ∧
    (∀ (src_index : FileIndex) (sr dr : String),
      (generate_sync_plan src_index [] sr dr).moves = [] ∧
      (generate_sync_plan src_index [] sr dr).skips = [] ∧
      (generate_sync_plan src_index [] sr dr).deletes = [] ∧
      (generate_sync_plan src_index [] sr dr).copies.length = src_index.length) := by
  constructor
  · intro pr acm dst sr dr used s mc hnone hfind hkey hroots
    have hcross : is_cross_project_move s.relative_path mc.relative_path pr acm =
        true := by
      unfold is_cross_project_move
      rw [hkey, if_pos rfl]
      exact bne_iff_ne.mpr hroots
    have hstep : (planSrcStep pr acm dst sr dr used s).1.action =
        SyncAction.copy := by
      unfold planSrcStep
      simp only [hnone, hfind, hcross]
      simp
    exact ⟨hstep, by rw [hstep]; intro hcontra; cases hcontra⟩
  · intro src_index sr dr
    have hplan : (generate_sync_plan src_index [] sr dr).items =
        src_index.map (fun s =>
          { action := SyncAction.copy, src_path := some (osJoin sr s.relative_path),
            dst_path := osJoin dr s.relative_path,
            src_rel_path := some s.relative_path,
            dst_rel_path := s.relative_path, move_from := none,
            reason := "New file" }) := by
      simp only [generate_sync_plan, all_files]
      rw [planSources_empty_dst]
      simp only [planDeleteItems, all_files, List.filter_nil, List.map_nil,
        List.append_nil]
    refine ⟨?_, ?_, ?_, ?_⟩
    · unfold SyncPlan.moves
      rw [hplan]
      apply List.filter_eq_nil_iff.mpr
      intro i hi
      obtain ⟨s, -, rfl⟩ := List.mem_map.mp hi
      simp
    · unfold SyncPlan.skips
      rw [hplan]
      apply List.filter_eq_nil_iff.mpr
      intro i hi
      obtain ⟨s, -, rfl⟩ := List.mem_map.mp hi
      simp
    · unfold SyncPlan.deletes
      rw [hplan]
      apply List.filter_eq_nil_iff.mpr
      intro i hi
      obtain ⟨s, -, rfl⟩ := List.mem_map.mp hi
      simp
    · unfold SyncPlan.copies
      rw [hplan]
      have : (src_index.map (fun s =>
          ({ action := SyncAction.copy, src_path := some (osJoin sr s.relative_path),
             dst_path := osJoin dr s.relative_path,
             src_rel_path := some s.relative_path,
             dst_rel_path := s.relative_path, move_from := none,
             reason := "New file" } : SyncItem))).filter
            (fun i => i.action == SyncAction.copy) =
          src_index.map (fun s =>
          { action := SyncAction.copy, src_path := some (osJoin sr s.relative_path),
            dst_path := osJoin dr s.relative_path,
            src_rel_path := some s.relative_path,
            dst_rel_path := s.relative_path, move_from := none,
            reason := "New file" }) := by
        apply List.filter_eq_self.mpr
        intro i hi
        obtain ⟨s, -, rfl⟩ := List.mem_map.mp hi
        simp
      rw [this, List.length_map]

theorem commonPrefixLen_take_eq :
    ∀ l1 l2 : List String,
      l1.take (commonPrefixLen l1 l2) = l2.take (commonPrefixLen l1 l2) := by
  intro l1
  induction l1 with
  | nil => intro l2; cases l2 <;> rfl
  | cons p1 r1 ih =>
    intro l2
    cases l2 with
    | nil => rfl
    | cons p2 r2 =>
      by_cases h : p1 = p2
      · simp only [commonPrefixLen, h, if_pos, List.take_succ_cons]
        rw [ih r2]
      · simp only [commonPrefixLen, h, if_neg, if_false, List.take_zero]

theorem commonPrefixLen_le_left :
    ∀ l1 l2 : List String, commonPrefixLen l1 l2 ≤ l1.length := by
  intro l1
  induction l1 with
  | nil => intro l2; cases l2 <;> simp [commonPrefixLen]
  | cons p1 r1 ih =>
    intro l2
    cases l2 with
    | nil => simp [commonPrefixLen]
    | cons p2 r2 =>
      by_cases h : p1 = p2
      · simp only [commonPrefixLen, h, if_pos, List.length_cons]
        exact Nat.succ_le_succ (ih r2)
      · simp only [commonPrefixLen, h, if_neg, if_false]
        exact Nat.zero_le _

theorem commonPrefixLen_le_right :
    ∀ l1 l2 : List String, commonPrefixLen l1 l2 ≤ l2.length := by
  intro l1
  induction l1 with
  | nil => intro l2; cases l2 <;> simp [commonPrefixLen]
  | cons p1 r1 ih =>
    intro l2
    cases l2 with
    | nil => simp [commonPrefixLen]
    | cons p2 r2 =>
      by_cases h : p1 = p2
      · simp only [commonPrefixLen, h, if_pos, List.length_cons]
        exact Nat.succ_le_succ (ih r2)
      · simp only [commonPrefixLen, h, if_neg, if_false]
        exact Nat.zero_le _

theorem commonPrefixLen_maximal :
    ∀ (l1 l2 : List String) (n : Nat), n ≤ l1.length → n ≤ l2.length →
      l1.take n = l2.take n → n ≤ commonPrefixLen l1 l2 := by
  intro l1
  induction l1 with
  | nil =>
    intro l2 n h1 _ _
    have : n = 0 := by simpa using h1
    simp [this]
  | cons p1 r1 ih =>
    intro l2 n h1 h2 htake
    cases l2 with
    | nil =>
      have : n = 0 := by simpa using h2
      simp [this]
    | cons p2 r2 =>
      cases n with
      | zero => exact Nat.zero_le _
      | succ m =>
        simp only [List.take_succ_cons, List.cons.injEq] at htake
        have hp : p1 = p2 := htake.1
        simp only [commonPrefixLen, hp, if_pos]
        exact Nat.succ_le_succ (ih r2 m (Nat.le_of_succ_le_succ h1)
          (Nat.le_of_succ_le_succ h2) htake.2)

theorem findBestMoveCandidate_cons (s : FileInfo) (x : FileInfo)
    (xs : List FileInfo) (sr dr : String) :
    findBestMoveCandidate s (x :: xs) sr dr =
      match (x :: xs).filter
          (fun c => osBasename c.relative_path == osBasename s.relative_path) with
      | [] => some (listMinBy
          (fun c => pathDistance s.relative_path c.relative_path) x xs)
      | y :: ys => some (listMinBy
          (fun c => pathDistance s.relative_path c.relative_path) y ys) := rfl

/-- C8: move-candidate selection.  When a source file has no
destination record at its own path and the unconsumed same-digest
candidate set is non-empty, the selected candidate prefers same-
basename records and minimizes the path distance among the preferred
pool (first minimum, as Python's `min`); and the path-distance metric
is the sum of the two directory depths beyond the longest common
directory prefix. -/
theorem move_candidate_selection (dst : FileIndex) (used : List String)
    (s : FileInfo) (sr dr : String)
    (_hnone : get_by_path dst s.relative_path = none)
    (hcands : (get_by_md5 dst s.md5).filter
      (fun c => !(used.contains c.relative_path)) ≠ []) :
    (∃ mc, findBestMoveCandidate s ((get_by_md5 dst s.md5).filter
        (fun c => !(used.contains c.relative_path))) sr dr = some mc ∧
      mc ∈ (get_by_md5 dst s.md5).filter
        (fun c => !(used.contains c.relative_path)) ∧
      (((get_by_md5 dst s.md5).filter
          (fun c => !(used.contains c.relative_path))).filter
          (fun c => osBasename c.relative_path ==
            osBasename s.relative_path) ≠ [] →
        osBasename mc.relative_path = osBasename s.relative_path ∧
        ∀ c ∈ ((get_by_md5 dst s.md5).filter
            (fun c => !(used.contains c.relative_path))).filter
            (fun c => osBasename c.relative_path == osBasename s.relative_path),
          pathDistance s.relative_path mc.relative_path ≤
          pathDistance s.relative_path c.relative_path) ∧
      (((get_by_md5 dst s.md5).filter
          (fun c => !(used.contains c.relative_path))).filter
          (fun c => osBasename c.relative_path ==
            osBasename s.relative_path) = [] →
        ∀ c ∈ (get_by_md5 dst s.md5).filter
            (fun c => !(used.contains c.relative_path)),
          pathDistance s.relative_path mc.relative_path ≤
          pathDistance s.relative_path c.relative_path)) ∧
    (∀ p q : String, pathDistance p q =
      ((strSplitOnChar '/' p).dropLast.length -
        commonPrefixLen (strSplitOnChar '/' p).dropLast (strSplitOnChar '/' q).dropLast) +
      ((strSplitOnChar '/' q).dropLast.length -
        commonPrefixLen (strSplitOnChar '/' p).dropLast (strSplitOnChar '/' q).dropLast)) ∧
    (∀ l1 l2 : List String,
      l1.take (commonPrefixLen l1 l2) = l2.take (commonPrefixLen l1 l2) ∧
      commonPrefixLen l1 l2 ≤ l1.length ∧ commonPrefixLen l1 l2 ≤ l2.length ∧
      ∀ n, n ≤ l1.length → n ≤ l2.length → l1.take n = l2.take n →
        n ≤ commonPrefixLen l1 l2) := by
  refine ⟨?_, ?_, ?_⟩
  · rcases hc : (get_by_md5 dst s.md5).filter
        (fun c => !(used.contains c.relative_path)) with - | ⟨x, xs⟩
    · exact absurd hc hcands
    rcases hsame : (x :: xs).filter
        (fun c => osBasename c.relative_path == osBasename s.relative_path) with
      - | ⟨y, ys⟩
    · refine ⟨listMinBy
        (fun c => pathDistance s.relative_path c.relative_path) x xs, ?_, ?_, ?_, ?_⟩
      · rw [hc, findBestMoveCandidate_cons, hsame]
      · exact hc ▸ listMinBy_mem _ x xs
      · intro hne
        rw [hc] at hne
        exact absurd hsame hne
      · intro _ c hcmem
        rw [hc] at hcmem
        exact listMinBy_le
          (fun c => pathDistance s.relative_path c.relative_path) x xs c hcmem
    · refine ⟨listMinBy
        (fun c => pathDistance s.relative_path c.relative_path) y ys, ?_, ?_, ?_, ?_⟩
      · rw [hc, findBestMoveCandidate_cons, hsame]
      · have hmem : listMinBy (fun c => pathDistance s.relative_path c.relative_path)
            y ys ∈ y :: ys := listMinBy_mem _ y ys
        rw [← hsame] at hmem
        exact hc ▸ List.mem_of_mem_filter hmem
      · intro _
        constructor
        · have hmem : listMinBy
              (fun c => pathDistance s.relative_path c.relative_path) y ys ∈
              y :: ys := listMinBy_mem _ y ys
          rw [← hsame] at hmem
          simpa using (List.mem_filter.mp hmem).2
        · intro c hcmem
          rw [hc, hsame] at hcmem
          exact listMinBy_le
            (fun c => pathDistance s.relative_path c.relative_path) y ys c hcmem
      · intro habs
        rw [hc] at habs
        rw [habs] at hsame
        cases hsame
  · intro p q
    unfold pathDistance
    simp only [List.length_dropLast]
  · intro l1 l2
    exact ⟨commonPrefixLen_take_eq l1 l2, commonPrefixLen_le_left l1 l2,
      commonPrefixLen_le_right l1 l2, commonPrefixLen_maximal l1 l2⟩

theorem build_index_characterization (md5fn : String → String) (root : String)
    (tree : FsTree) (ed ex : List String) (maxmb : Nat) (cache : Option Jval) :
    build_index md5fn root tree ed ex maxmb cache =
      (((walkFiles root tree ed).filter (indexAccepts ed ex maxmb)).map
         (indexRec md5fn root cache),
       ((walkFiles root tree ed).filter
         (fun e => !(indexAccepts ed ex maxmb e))).map (skipRec root ed ex maxmb)) := by
  unfold build_index
  generalize walkFiles root tree ed = entries
  suffices h : ∀ (entries : List (String × FsFile)) (acc : FileIndex × List Skipped),
      entries.foldl (fun acc e =>
        match should_exclude e.1 (contentSize e.2.content) ed ex maxmb with
        | some exclude_reason =>
          (acc.1, acc.2 ++ [{ path := e.1,
                              filename := osBasename (normalize_path (osRelpath e.1 root)),
                              reason := exclude_reason }])
        | none =>
          (acc.1 ++ [{ relative_path := normalize_path (osRelpath e.1 root),
                       md5 :=
                         match cacheLookupMd5 cache
                             (normalize_path (osRelpath e.1 root))
                             (contentSize e.2.content) e.2.mtime with
                         | some m => m
                         | none => md5fn (contentStr e.2.content),
                       mtime := e.2.mtime,
                       size := contentSize e.2.content }], acc.2)) acc =
      (acc.1 ++ (entries.filter (indexAccepts ed ex maxmb)).map
         (indexRec md5fn root cache),
       acc.2 ++ (entries.filter (fun e => !(indexAccepts ed ex maxmb e))).map
         (skipRec root ed ex maxmb)) by
    have := h entries ([], [])
    simpa using this
  intro entries
  induction entries with
  | nil => intro acc; simp
  | cons e rest ih =>
    intro acc
    simp only [List.foldl_cons, List.filter_cons]
    cases hse : should_exclude e.1 (contentSize e.2.content) ed ex maxmb with
    | some reason =>
      have hacc : indexAccepts ed ex maxmb e = false := by
        unfold indexAccepts
        rw [hse]
        rfl
      simp only [hse, hacc, Bool.not_false, if_neg, if_pos, Bool.false_eq_true,
        if_false, List.map_cons]
      rw [ih]
      have hskip : skipRec root ed ex maxmb e =
          { path := e.1,
            filename := osBasename (normalize_path (osRelpath e.1 root)),
            reason := reason } := by
        unfold skipRec
        rw [hse]
        rfl
      simp [hskip]
    | none =>
      have hacc : indexAccepts ed ex maxmb e = true := by
        unfold indexAccepts
        rw [hse]
        rfl
      simp only [hse, hacc, Bool.not_true, if_pos, Bool.false_eq_true, if_false,
        List.map_cons]
      rw [ih]
      have hrec : indexRec md5fn root cache e =
          { relative_path := normalize_path (osRelpath e.1 root),
            md5 :=
              match cacheLookupMd5 cache (normalize_path (osRelpath e.1 root))
                  (contentSize e.2.content) e.2.mtime with
              | some m => m
              | none => md5fn (contentStr e.2.content),
            mtime := e.2.mtime,
            size := contentSize e.2.content } := rfl
      simp [hrec]

theorem should_exclude_none_size {path : String} {sz : Nat}
    {ed ex : List String} {maxmb : Nat}
    (h : should_exclude path sz ed ex maxmb = none) : sz ≤ maxmb * 1048576 := by
  unfold should_exclude at h
  simp only [] at h
  cases h1 : (strSplitOnChar '/' path).find? (fun part => ed.contains part) with
  | some part => rw [h1] at h; cases h
  | none =>
    rw [h1] at h
    cases h2 : ex.find? (fun ext => strEndsWith (strToLower path) (strToLower ext)) with
    | some e => rw [h2] at h; cases h
    | none =>
      rw [h2] at h
      by_cases hgt : sz > maxmb * 1048576
      · rw [if_pos hgt] at h
        cases h
      · exact Nat.le_of_not_lt hgt

/-- C9: size bound.  No indexed file exceeds the configured maximum;
for a path passing the directory and extension rules, the filter
rejects exactly the oversize files; and the built index and skipped
list are exactly the accepted and rejected visited files, so a
rejected file lands in the skipped list and contributes no index
record. -/
theorem build_index_size_bound (md5fn : String → String) (root : String)
    (tree : FsTree) (ed ex : List String) (maxmb : Nat) (cache : Option Jval) :
    (∀ f ∈ (build_index md5fn root tree ed ex maxmb cache).1,
      f.size ≤ maxmb * 1048576) ∧
    (∀ (path : String) (sz : Nat),
      (∀ part ∈ strSplitOnChar '/' path, ed.contains part = false) →
      (∀ e ∈ ex, strEndsWith (strToLower path) (strToLower e) = false) →
      ((should_exclude path sz ed ex maxmb).isSome ↔ sz > maxmb * 1048576)) ∧
    (build_index md5fn root tree ed ex maxmb cache).1 =
      ((walkFiles root tree ed).filter (indexAccepts ed ex maxmb)).map
        (indexRec md5fn root cache) ∧
    (build_index md5fn root tree ed ex maxmb cache).2 =
      ((walkFiles root tree ed).filter
        (fun e => !(indexAccepts ed ex maxmb e))).map (skipRec root ed ex maxmb) := by
  have hchar := build_index_characterization md5fn root tree ed ex maxmb cache
  refine ⟨?_, ?_, ?_, ?_⟩
  · intro f hf
    rw [hchar] at hf
    simp only at hf
    obtain ⟨e, he, rfl⟩ := List.mem_map.mp hf
    have hacc := (List.mem_filter.mp he).2
    unfold indexAccepts at hacc
    rw [Option.isNone_iff_eq_none] at hacc
    exact should_exclude_none_size hacc
  · intro path sz hdir hext
    unfold should_exclude
    simp only []
    have h1 : (strSplitOnChar '/' path).find? (fun part => ed.contains part) = none := by
      apply List.find?_eq_none.mpr
      intro part hpart
      rw [hdir part hpart]
      simp
    have h2 : ex.find? (fun ext => strEndsWith (strToLower path) (strToLower ext)) = none := by
      apply List.find?_eq_none.mpr
      intro e he
      rw [hext e he]
      simp
    rw [h1, h2]
    by_cases hgt : sz > maxmb * 1048576
    · simp [hgt]
    · simp [hgt]
  · rw [hchar]
  · rw [hchar]

theorem verifyCheck_of_mirrors {md5fn : String → String} {dr : String}
    {t : FsTree} {s : FileInfo} (h : mirrorsRecord md5fn dr t s = true) :
    verifyCheck md5fn dr t s = [] := by
  unfold mirrorsRecord at h
  unfold verifyCheck
  cases hg : treeGet t (osJoin dr s.relative_path) with
  | none => rw [hg] at h; cases h
  | some f =>
    rw [hg] at h
    simp only [Bool.and_eq_true, beq_iff_eq] at h
    simp [h.1, h.2]

theorem verifyCheck_of_not_mirrors {md5fn : String → String} {dr : String}
    {t : FsTree} {s : FileInfo} (h : mirrorsRecord md5fn dr t s = false) :
    ∃ r, verifyCheck md5fn dr t s = [{ path := s.relative_path, reason := r }] := by
  unfold mirrorsRecord at h
  unfold verifyCheck
  cases hg : treeGet t (osJoin dr s.relative_path) with
  | none => exact ⟨_, rfl⟩
  | some f =>
    rw [hg] at h
    simp only [] at h ⊢
    by_cases h1 : contentSize f.content = s.size
    · by_cases h2 : md5fn (contentStr f.content) = s.md5
      · rw [h1, h2] at h
        simp at h
      · exact ⟨"MD5 mismatch: source=" ++ s.md5 ++ ", dest=" ++
          md5fn (contentStr f.content), by rw [if_neg (by simp [h1]), if_pos h2]⟩
    · exact ⟨"Size mismatch: source=" ++ toString s.size ++ ", dest=" ++
        toString (contentSize f.content), by rw [if_pos h1]⟩

theorem verify_mirror_eq_flat (md5fn : String → String) (src_index : FileIndex)
    (dr : String) (t : FsTree) :
    verify_mirror md5fn src_index dr t =
      (((all_files src_index).flatMap (verifyCheck md5fn dr t)).isEmpty,
       (all_files src_index).flatMap (verifyCheck md5fn dr t)) := by
  unfold verify_mirror
  suffices h : ∀ (l : List FileInfo) (acc : List Mismatch),
      l.foldl (fun acc src_file =>
        match treeGet t (osJoin dr src_file.relative_path) with
        | none =>
          acc ++ [{ path := src_file.relative_path,
                    reason := "File missing in destination" }]
        | some f =>
          if contentSize f.content ≠ src_file.size then
            acc ++ [{ path := src_file.relative_path,
                      reason := "Size mismatch: source=" ++ toString src_file.size ++
                                ", dest=" ++ toString (contentSize f.content) }]
          else
            if md5fn (contentStr f.content) ≠ src_file.md5 then
              acc ++ [{ path := src_file.relative_path,
                        reason := "MD5 mismatch: source=" ++ src_file.md5 ++
                                  ", dest=" ++ md5fn (contentStr f.content) }]
            else acc) acc =
      acc ++ l.flatMap (verifyCheck md5fn dr t) by
    rw [h (all_files src_index) []]
    simp
  intro l
  induction l with
  | nil => intro acc; simp
  | cons s rest ih =>
    intro acc
    simp only [List.foldl_cons, List.flatMap_cons]
    have hstep : (match treeGet t (osJoin dr s.relative_path) with
        | none =>
          acc ++ [{ path := s.relative_path,
                    reason := "File missing in destination" }]
        | some f =>
          if contentSize f.content ≠ s.size then
            acc ++ [{ path := s.relative_path,
                      reason := "Size mismatch: source=" ++ toString s.size ++
                                ", dest=" ++ toString (contentSize f.content) }]
          else
            if md5fn (contentStr f.content) ≠ s.md5 then
              acc ++ [{ path := s.relative_path,
                        reason := "MD5 mismatch: source=" ++ s.md5 ++
                                  ", dest=" ++ md5fn (contentStr f.content) }]
            else acc) = acc ++ verifyCheck md5fn dr t s := by
      unfold verifyCheck
      cases hg : treeGet t (osJoin dr s.relative_path) with
      | none => rfl
      | some f =>
        simp only []
        by_cases h1 : contentSize f.content ≠ s.size
        · rw [if_pos h1, if_pos h1]
        · rw [if_neg h1, if_neg h1]
          by_cases h2 : md5fn (contentStr f.content) ≠ s.md5
          · rw [if_pos h2, if_pos h2]
          · rw [if_neg h2, if_neg h2]
            simp
    rw [hstep, ih, List.append_assoc]

theorem mirrorsRecord_iff {md5fn : String → String} {dr : String} {t : FsTree}
    {s : FileInfo} :
    mirrorsRecord md5fn dr t s = true ↔
      ∃ f, treeGet t (osJoin dr s.relative_path) = some f ∧
        contentSize f.content = s.size ∧ md5fn (contentStr f.content) = s.md5 := by
  unfold mirrorsRecord
  cases hg : treeGet t (osJoin dr s.relative_path) with
  | none => simp
  | some f =>
    simp only [Bool.and_eq_true, beq_iff_eq, Option.some.injEq]
    constructor
    · intro h
      exact ⟨f, rfl, h.1, h.2⟩
    · intro ⟨f2, hf2, h1, h2⟩
      cases hf2
      exact ⟨h1, h2⟩

theorem flat_verifyCheck_paths (md5fn : String → String) (dr : String) (t : FsTree) :
    ∀ l : List FileInfo,
      (l.flatMap (verifyCheck md5fn dr t)).map (fun m => m.path) =
      (l.filter (fun s => !(mirrorsRecord md5fn dr t s))).map
        (fun s => s.relative_path) := by
  intro l
  induction l with
  | nil => rfl
  | cons s rest ih =>
    simp only [List.flatMap_cons, List.filter_cons, List.map_append]
    cases hm : mirrorsRecord md5fn dr t s with
    | true =>
      rw [verifyCheck_of_mirrors hm]
      simpa using ih
    | false =>
      obtain ⟨r, hr⟩ := verifyCheck_of_not_mirrors hm
      rw [hr]
      simp only [Bool.not_false, if_pos, List.map_cons]
      simpa using ih

/-- C5: verifier contract.  `ok` is true iff every source record is
present at the joined destination path with matching size and digest;
each failing record contributes exactly one `path`/`reason` mismatch
entry (in index order); and `ok` is exactly the emptiness of the
mismatch list. -/
theorem verify_mirror_contract (md5fn : String → String) (src_index : FileIndex)
    (dst_root : String) (dstTree : FsTree) :
    ((verify_mirror md5fn src_index dst_root dstTree).1 = true ↔
      ∀ s ∈ src_index, ∃ f, treeGet dstTree (osJoin dst_root s.relative_path) =
        some f ∧ contentSize f.content = s.size ∧
        md5fn (contentStr f.content) = s.md5) ∧
    ((verify_mirror md5fn src_index dst_root dstTree).2.map (fun m => m.path) =
      ((all_files src_index).filter
        (fun s => !(mirrorsRecord md5fn dst_root dstTree s))).map
        (fun s => s.relative_path)) ∧
    ((verify_mirror md5fn src_index dst_root dstTree).1 =
      (verify_mirror md5fn src_index dst_root dstTree).2.isEmpty) := by
  rw [verify_mirror_eq_flat]
  refine ⟨?_, flat_verifyCheck_paths md5fn dst_root dstTree (all_files src_index),
    rfl⟩
  simp only [List.isEmpty_iff]
  constructor
  · intro hempty s hs
    rw [← mirrorsRecord_iff]
    by_contra hcontra
    have hm : mirrorsRecord md5fn dst_root dstTree s = false :=
      Bool.eq_false_iff.mpr hcontra
    obtain ⟨r, hr⟩ := verifyCheck_of_not_mirrors hm
    have : ({ path := s.relative_path, reason := r } : Mismatch) ∈
        (all_files src_index).flatMap (verifyCheck md5fn dst_root dstTree) := by
      apply List.mem_flatMap.mpr
      exact ⟨s, hs, by rw [hr]; exact List.mem_singleton.mpr rfl⟩
    rw [hempty] at this
    cases this
  · intro hall
    apply List.flatMap_eq_nil_iff.mpr
    intro s hs
    exact verifyCheck_of_mirrors (mirrorsRecord_iff.mpr (hall s hs))

theorem execMoves_events_shape (t : FsTree) (items : List SyncItem) :
    ∀ e ∈ (execMoves t items).2.1, ∃ a b, e = Event.moved a b := by
  unfold execMoves
  suffices h : ∀ (items : List SyncItem) (acc : FsTree × List Event × Nat × Nat),
      ∀ e ∈ (items.foldl (fun acc item =>
        match treeGet acc.1 (item.move_from.getD "") with
        | some f =>
          (treeSet (treeErase acc.1 (item.move_from.getD "")) item.dst_path f,
           acc.2.1 ++ [Event.moved (item.move_from.getD "") item.dst_path],
           acc.2.2.1 + 1, acc.2.2.2)
        | none => (acc.1, acc.2.1, acc.2.2.1, acc.2.2.2 + 1)) acc).2.1,
        e ∈ acc.2.1 ∨ ∃ a b, e = Event.moved a b by
    intro e he
    rcases h items (t, [], 0, 0) e he with habs | hok
    · cases habs
    · exact hok
  intro items2
  induction items2 with
  | nil => intro acc e he; exact Or.inl he
  | cons item rest ih =>
    intro acc e he
    simp only [List.foldl_cons] at he
    cases hg : treeGet acc.1 (item.move_from.getD "") with
    | some f =>
      rw [hg] at he
      simp only [] at he
      rcases ih _ e he with hacc | hok
      · rcases List.mem_append.mp hacc with h1 | h2
        · exact Or.inl h1
        · exact Or.inr ⟨_, _, List.mem_singleton.mp h2⟩
      · exact Or.inr hok
    | none =>
      rw [hg] at he
      simp only [] at he
      exact ih (acc.1, acc.2.1, acc.2.2.1, acc.2.2.2 + 1) e he

theorem execCopies_events_shape (srcTree t : FsTree) (items : List SyncItem) :
    ∀ e ∈ (execCopies srcTree t items).2.1, ∃ a, e = Event.copied a := by
  unfold execCopies
  suffices h : ∀ (items : List SyncItem) (acc : FsTree × List Event × Nat × Nat),
      ∀ e ∈ (items.foldl (fun acc item =>
        match treeGet srcTree (item.src_path.getD "") with
        | some f =>
          (treeSet acc.1 item.dst_path f,
           acc.2.1 ++ [Event.copied item.dst_path],
           acc.2.2.1 + 1, acc.2.2.2)
        | none => (acc.1, acc.2.1, acc.2.2.1, acc.2.2.2 + 1)) acc).2.1,
        e ∈ acc.2.1 ∨ ∃ a, e = Event.copied a by
    intro e he
    rcases h items (t, [], 0, 0) e he with habs | hok
    · cases habs
    · exact hok
  intro items2
  induction items2 with
  | nil => intro acc e he; exact Or.inl he
  | cons item rest ih =>
    intro acc e he
    simp only [List.foldl_cons] at he
    cases hg : treeGet srcTree (item.src_path.getD "") with
    | some f =>
      rw [hg] at he
      simp only [] at he
      rcases ih _ e he with hacc | hok
      · rcases List.mem_append.mp hacc with h1 | h2
        · exact Or.inl h1
        · exact Or.inr ⟨_, List.mem_singleton.mp h2⟩
      · exact Or.inr hok
    | none =>
      rw [hg] at he
      simp only [] at he
      exact ih (acc.1, acc.2.1, acc.2.2.1, acc.2.2.2 + 1) e he

theorem execute_sync_plan_events_shape (srcTree dstTree : FsTree) (plan : SyncPlan) :
    ∀ e ∈ (execute_sync_plan srcTree dstTree plan).2.1,
      (∃ a b, e = Event.moved a b) ∨ (∃ a, e = Event.copied a) := by
  intro e he
  unfold execute_sync_plan at he
  simp only [] at he
  rcases List.mem_append.mp he with h1 | h2
  · exact Or.inl (execMoves_events_shape _ _ e h1)
  · exact Or.inr (execCopies_events_shape _ _ _ e h2)

theorem execute_deletes_events_shape (t : FsTree) (plan : SyncPlan) :
    ∀ e ∈ (execute_deletes t plan).2.1, ∃ a, e = Event.deleted a := by
  unfold execute_deletes
  suffices h : ∀ (items : List SyncItem) (acc : FsTree × List Event × Nat × Nat),
      ∀ e ∈ (items.foldl (fun acc item =>
        match treeGet acc.1 item.dst_path with
        | some _ =>
          (treeErase acc.1 item.dst_path, acc.2.1 ++ [Event.deleted item.dst_path],
           acc.2.2.1 + 1, acc.2.2.2)
        | none => (acc.1, acc.2.1, acc.2.2.1, acc.2.2.2 + 1)) acc).2.1,
        e ∈ acc.2.1 ∨ ∃ a, e = Event.deleted a by
    intro e he
    rcases h plan.deletes (t, [], 0, 0) e he with habs | hok
    · cases habs
    · exact hok
  intro items2
  induction items2 with
  | nil => intro acc e he; exact Or.inl he
  | cons item rest ih =>
    intro acc e he
    simp only [List.foldl_cons] at he
    cases hg : treeGet acc.1 item.dst_path with
    | some f =>
      rw [hg] at he
      simp only [] at he
      rcases ih _ e he with hacc | hok
      · rcases List.mem_append.mp hacc with h1 | h2
        · exact Or.inl h1
        · exact Or.inr ⟨_, List.mem_singleton.mp h2⟩
      · exact Or.inr hok
    | none =>
      rw [hg] at he
      simp only [] at he
      exact ih (acc.1, acc.2.1, acc.2.2.1, acc.2.2.2 + 1) e he

/-- If a trace is `A ++ v :: B` with the event `d` absent from `A` and
distinct from `v`, then in any decomposition `pre ++ d :: post` the
event `v` lies in `pre` (i.e. `v` precedes every occurrence of `d`). -/
theorem mem_pre_of_trace {v d : Event} :
    ∀ {A : List Event} {B pre post : List Event},
      d ∉ A → v ≠ d → A ++ v :: B = pre ++ d :: post → v ∈ pre := by
  intro A
  induction A with
  | nil =>
    intro B pre post _ hvd heq
    cases pre with
    | nil =>
      simp only [List.nil_append] at heq
      cases heq
      exact absurd rfl hvd
    | cons a pre2 =>
      simp only [List.nil_append, List.cons_append, List.cons.injEq] at heq
      exact heq.1 ▸ List.mem_cons_self _ _
  | cons a A2 ih =>
    intro B pre post hdA hvd heq
    cases pre with
    | nil =>
      simp only [List.cons_append, List.nil_append, List.cons.injEq] at heq
      rw [← heq.1] at hdA
      exact absurd (List.mem_cons_self a A2) hdA
    | cons b pre2 =>
      simp only [List.cons_append, List.cons.injEq] at heq
      exact List.mem_cons_of_mem _
        (ih (fun hmem => hdA (List.mem_cons_of_mem _ hmem)) hvd heq.2)

theorem safe_trace_concat {A D : List Event}
    (hA : ∀ e ∈ A, (∃ a b, e = Event.moved a b) ∨ (∃ a, e = Event.copied a))
    (hD : ∀ e ∈ D, ∃ a, e = Event.deleted a) :
    (∀ pre p post, A ++ [Event.verified true] ++ D ++ [Event.cacheSaved] =
        pre ++ Event.deleted p :: post → Event.verified true ∈ pre) ∧
    (Event.verified false ∉ A ++ [Event.verified true] ++ D ++ [Event.cacheSaved]) := by
  constructor
  · intro pre p post heq
    have heq2 : A ++ Event.verified true :: (D ++ [Event.cacheSaved]) =
        pre ++ Event.deleted p :: post := by
      rw [← heq]
      simp
    refine mem_pre_of_trace ?_ ?_ heq2
    · intro hmem
      rcases hA _ hmem with ⟨a, b, he⟩ | ⟨a, he⟩
      · cases he
      · cases he
    · intro he
      cases he
  · intro hf
    rcases List.mem_append.mp hf with h1 | h2
    · rcases List.mem_append.mp h1 with h3 | h4
      · rcases List.mem_append.mp h3 with h5 | h6
        · rcases hA _ h5 with ⟨a, b, he⟩ | ⟨a, he⟩
          · cases he
          · cases he
        · simp at h6
      · rcases hD _ h4 with ⟨a, he⟩
        cases he
    · simp at h2

theorem fail_trace_concat {A : List Event}
    (hA : ∀ e ∈ A, (∃ a b, e = Event.moved a b) ∨ (∃ a, e = Event.copied a)) :
    (∀ pre p post, A ++ [Event.verified false] =
        pre ++ Event.deleted p :: post → Event.verified true ∈ pre) ∧
    (∀ p, Event.deleted p ∉ A ++ [Event.verified false]) ∧
    (Event.cacheSaved ∉ A ++ [Event.verified false]) := by
  have hnodel : ∀ p, Event.deleted p ∉ A ++ [Event.verified false] := by
    intro p hmem
    rcases List.mem_append.mp hmem with h1 | h2
    · rcases hA _ h1 with ⟨a, b, he⟩ | ⟨a, he⟩
      · cases he
      · cases he
    · simp at h2
  refine ⟨?_, hnodel, ?_⟩
  · intro pre p post heq
    exact absurd (heq ▸ List.mem_append_right pre (List.mem_cons_self _ _))
      (hnodel p)
  · intro hmem
    rcases List.mem_append.mp hmem with h1 | h2
    · rcases hA _ h1 with ⟨a, b, he⟩ | ⟨a, he⟩
      · cases he
      · cases he
    · simp at h2

/-- C1: the verify-before-delete gate.  In every run accepted by the
orchestrator, any Delete applied to disk is preceded in the same
event trace by a verification that returned ok; and when verification
fails, the trace contains no deletion and no cache write. -/
theorem safe_delete_gate (md5fn : String → String) (created : String)
    (cacheMtime : Int) (srcTree : FsTree) (src dst : String) (dstTree : FsTree)
    (dry_run verify_only : Bool) (r : RunResult)
    (h : backup_directory md5fn created cacheMtime srcTree src dst dstTree
      dry_run verify_only = Except.ok r) :
    (∀ pre p post, r.events = pre ++ Event.deleted p :: post →
      Event.verified true ∈ pre) ∧
    (Event.verified false ∈ r.events →
      (∀ p, Event.deleted p ∉ r.events) ∧ Event.cacheSaved ∉ r.events) := by
  unfold backup_directory at h
  simp only [] at h
  split at h
  · injection h with h
    subst h
    constructor
    · intro pre p post heq
      have hmem : Event.deleted p ∈ pre ++ Event.deleted p :: post :=
        List.mem_append_right _ (List.mem_cons_self _ _)
      rw [← heq] at hmem
      simp at hmem
    · intro _
      constructor
      · intro p hdel
        simp at hdel
      · intro hcs
        simp at hcs
  · split at h
    · exact Except.noConfusion h
    · split at h
      · injection h with h
        subst h
        constructor
        · intro pre p post heq
          have hmem : Event.deleted p ∈ pre ++ Event.deleted p :: post :=
            List.mem_append_right _ (List.mem_cons_self _ _)
          rw [← heq] at hmem
          simp at hmem
        · intro hfalse
          simp at hfalse
      · split at h
        · injection h with h
          subst h
          constructor
          · intro pre p post heq
            have hmem : Event.deleted p ∈ pre ++ Event.deleted p :: post :=
              List.mem_append_right _ (List.mem_cons_self _ _)
            rw [← heq] at hmem
            simp at hmem
          · intro hfalse
            simp at hfalse
        · split at h
          · injection h with h
            subst h
            simp only []
            constructor
            · exact (fail_trace_concat
                (execute_sync_plan_events_shape srcTree dstTree _)).1
            · intro _
              exact ⟨(fail_trace_concat
                  (execute_sync_plan_events_shape srcTree dstTree _)).2.1,
                (fail_trace_concat
                  (execute_sync_plan_events_shape srcTree dstTree _)).2.2⟩
          · injection h with h
            subst h
            simp only []
            constructor
            · exact (safe_trace_concat
                (execute_sync_plan_events_shape srcTree dstTree _)
                (execute_deletes_events_shape _ _)).1
            · intro hf
              exact absurd hf (safe_trace_concat
                (execute_sync_plan_events_shape srcTree dstTree _)
                (execute_deletes_events_shape _ _)).2

/-- C7 (amended): when verification fails in a run the orchestrator
accepts, the process still exits with code 0 (the failure path merely
returns), and the run performs no deletion and writes no cache; the
moves and copies executed before verification are not rolled back (see
the concrete counterexample, where the destination tree changed). -/
theorem verify_failure_result (md5fn : String → String) (created : String)
    (cacheMtime : Int) (srcTree : FsTree) (src dst : String) (dstTree : FsTree)
    (dry_run verify_only : Bool) (r : RunResult)
    (_hdry : dry_run = false) (_hvo : verify_only = false)
    (h : backup_directory md5fn created cacheMtime srcTree src dst dstTree
      dry_run verify_only = Except.ok r)
    (hfail : Event.verified false ∈ r.events) :
    main_exit_code (backup_directory md5fn created cacheMtime srcTree src dst
      dstTree dry_run verify_only) = 0 ∧
    (∀ p, Event.deleted p ∉ r.events) ∧ Event.cacheSaved ∉ r.events := by
  refine ⟨by rw [h]; rfl, ?_⟩
  unfold backup_directory at h
  simp only [] at h
  split at h
  · injection h with h
    subst h
    constructor
    · intro p hdel
      simp at hdel
    · intro hcs
      simp at hcs
  · split at h
    · exact Except.noConfusion h
    · split at h
      · injection h with h
        subst h
        simp at hfail
      · split at h
        · injection h with h
          subst h
          simp at hfail
        · split at h
          · injection h with h
            subst h
            simp only [] at hfail ⊢
            exact ⟨(fail_trace_concat
                (execute_sync_plan_events_shape srcTree dstTree _)).2.1,
              (fail_trace_concat
                (execute_sync_plan_events_shape srcTree dstTree _)).2.2⟩
          · injection h with h
            subst h
            simp only [] at hfail
            exact absurd hfail (safe_trace_concat
              (execute_sync_plan_events_shape srcTree dstTree _)
              (execute_deletes_events_shape _ _)).2

/-- C3 (counterexample): running backup twice on an unchanged source
does NOT give a plan free of deletes on the second run: the cache file
written by the first run is indexed in the destination and becomes one
Delete action. -/
theorem second_run_counterexample :
    (c3Run2.toOption.bind RunResult.plan).map
      (fun p => (p.copies.length, p.moves.length, p.skips.length,
        p.deletes.map (fun i => i.dst_rel_path))) =
      some (0, 0, 1, [".backup_index.json"]) := by rfl

/-- C7 (counterexample): a normal run whose verification fails (the
destination index reused a stale cached digest, so a corrupt
destination file was skipped) exits with code 0 and leaves the
destination CHANGED (the new file was copied before verification). -/
theorem verify_failure_counterexample :
    main_exit_code c7Run = 0 ∧
    c7Run.toOption.map (fun r => r.events) =
      some [Event.copied "D/new.txt", Event.verified false] ∧
    c7Run.toOption.map (fun r => decide (r.finalDst = c7DstTree)) = some false ∧
    c7Run.toOption.map (fun r => r.verify.map (fun v => v.1)) =
      some (some false) := by
  exact ⟨rfl, rfl, rfl, rfl⟩

/-- C6: the cache loader and writer.  The saved document has version 1
and a files mapping carrying exactly the digest (`md5`), `mtime` and
`size` fields per path, and loading it back yields that mapping; load
gives `None` on an absent file, an unparseable file, and a wrong
version — but a file holding a valid non-object JSON document (here
the JSON string "hello") makes `load_index_cache` raise an uncaught
`AttributeError` instead of returning `None`. -/
theorem load_index_cache_behavior :
    load_index_cache (some (Content.json (Jval.jstr "hello"))) =
      Except.error "AttributeError: get on non-dict JSON document" ∧
    load_index_cache none = Except.ok none ∧
    load_index_cache (some (Content.raw "not json")) = Except.ok none ∧
    load_index_cache (some (Content.json (jobjOf [("version", Jval.jnum 2)]))) =
      Except.ok none ∧
    save_index_cache_doc "t" [c3MirrorRec] =
      jobjOf [("version", Jval.jnum 1), ("created", Jval.jstr "t"),
        ("files", jobjOf [("a.txt", jobjOf
          [("md5", Jval.jstr "hi"), ("mtime", Jval.jnum 1),
           ("size", Jval.jnum 2)])])] ∧
    load_index_cache (some (Content.json (save_index_cache_doc "t" [c3MirrorRec]))) =
      Except.ok (some (jobjOf [("a.txt", jobjOf
        [("md5", Jval.jstr "hi"), ("mtime", Jval.jnum 1),
         ("size", Jval.jnum 2)])])) := by
  exact ⟨rfl, rfl, rfl, rfl, rfl, rfl⟩

theorem safe_delete_gate_witness :
    (∀ pre p post, c3R2.events = pre ++ Event.deleted p :: post →
      Event.verified true ∈ pre) ∧
    (Event.verified false ∈ c3R2.events →
      (∀ p, Event.deleted p ∉ c3R2.events) ∧ Event.cacheSaved ∉ c3R2.events) :=
  safe_delete_gate id "t2" 20 c3SrcTree "S" "D" c3Dst1 false false c3R2 (by rfl)

theorem generate_sync_plan_soundness_witness :
    (∀ s ∈ c2SrcIndex, ((generate_sync_plan c2SrcIndex c2DstIndex "S" "D").items.filter
        (fun i => i.action != SyncAction.delete &&
                  i.dst_rel_path == s.relative_path)).length = 1) ∧
    (∀ d ∈ c2DstIndex,
      (∃ i ∈ (generate_sync_plan c2SrcIndex c2DstIndex "S" "D").items,
        TargetedBy "D" i d.relative_path) ∨
      (∃ i ∈ (generate_sync_plan c2SrcIndex c2DstIndex "S" "D").items,
        i.action = SyncAction.delete ∧ i.dst_rel_path = d.relative_path)) :=
  generate_sync_plan_soundness c2SrcIndex c2DstIndex "S" "D" (by decide)

theorem generate_sync_plan_delete_safety_witness :
    (∀ s ∈ c2SrcIndex, s.relative_path ≠ c2DeleteItem.dst_rel_path) ∧
    (∃ d ∈ c2DstIndex, d.relative_path = c2DeleteItem.dst_rel_path) ∧
    (∀ j ∈ (generate_sync_plan c2SrcIndex c2DstIndex "S" "D").items,
      ¬ TargetedBy "D" j c2DeleteItem.dst_rel_path) ∧
    ((generate_sync_plan c2SrcIndex c2DstIndex "S" "D").items.filter
      (fun j => j.action == SyncAction.delete &&
                j.dst_rel_path == c2DeleteItem.dst_rel_path)).length = 1 :=
  generate_sync_plan_delete_safety c2SrcIndex c2DstIndex "S" "D" (by decide)
    c2DeleteItem (by decide) rfl

theorem second_run_plan_shape_witness :
    (generate_sync_plan [c3MirrorRec] ([c3MirrorRec] ++ [c3CacheRec]) "S" "D").copies
      = [] ∧
    (generate_sync_plan [c3MirrorRec] ([c3MirrorRec] ++ [c3CacheRec]) "S" "D").moves
      = [] ∧
    (generate_sync_plan [c3MirrorRec] ([c3MirrorRec] ++ [c3CacheRec]) "S" "D").skips.length
      = ([c3MirrorRec] : FileIndex).length ∧
    (generate_sync_plan [c3MirrorRec] ([c3MirrorRec] ++ [c3CacheRec]) "S" "D").deletes.map
      (fun i => i.dst_rel_path) = [INDEX_CACHE_FILENAME] :=
  second_run_plan_shape [c3MirrorRec] [c3MirrorRec] c3CacheRec "S" "D"
    (List.Forall₂.cons ⟨rfl, rfl⟩ List.Forall₂.nil) rfl (by decide) (by decide)

theorem boilerplate_protection_witness :
    (planSrcStep (detect_project_roots c4Src)
      (build_always_copy_map (detect_project_roots c4Src)) c4Dst "S" "D" []
      c4G2).1.action = SyncAction.copy ∧
    (planSrcStep (detect_project_roots c4Src)
      (build_always_copy_map (detect_project_roots c4Src)) c4Dst "S" "D" []
      c4G2).1.action ≠ SyncAction.move ∧
    (generate_sync_plan c4Src [] "S" "D").moves = [] ∧
    (generate_sync_plan c4Src [] "S" "D").copies.length = c4Src.length := by
  have h1 := boilerplate_protection.1 (detect_project_roots c4Src)
    (build_always_copy_map (detect_project_roots c4Src)) c4Dst "S" "D" []
    c4G2 c4G1 (by rfl) (by rfl) (by rfl) (by decide)
  have h2 := boilerplate_protection.2 c4Src "S" "D"
  exact ⟨h1.1, h1.2, h2.1, h2.2.2.2⟩

theorem verify_mirror_contract_witness :
    ((verify_mirror id c5SrcIndex "D" c5DstTree).1 = true ↔
      ∀ s ∈ c5SrcIndex, ∃ f, treeGet c5DstTree (osJoin "D" s.relative_path) =
        some f ∧ contentSize f.content = s.size ∧
        id (contentStr f.content) = s.md5) ∧
    ((verify_mirror id c5SrcIndex "D" c5DstTree).2.map (fun m => m.path) =
      ((all_files c5SrcIndex).filter
        (fun s => !(mirrorsRecord id "D" c5DstTree s))).map
        (fun s => s.relative_path)) ∧
    ((verify_mirror id c5SrcIndex "D" c5DstTree).1 =
      (verify_mirror id c5SrcIndex "D" c5DstTree).2.isEmpty) :=
  verify_mirror_contract id c5SrcIndex "D" c5DstTree

theorem verify_failure_result_witness :
    main_exit_code (backup_directory id "t3" 30 c7SrcTree "S" "D" c7DstTree
      false false) = 0 ∧
    (∀ p, Event.deleted p ∉ c7R.events) ∧ Event.cacheSaved ∉ c7R.events :=
  verify_failure_result id "t3" 30 c7SrcTree "S" "D" c7DstTree false false c7R
    rfl rfl (by rfl) (by decide)

theorem move_candidate_selection_witness :
    (∃ mc, findBestMoveCandidate c8Src ((get_by_md5 c8Dst c8Src.md5).filter
        (fun c => !(([] : List String).contains c.relative_path))) "S" "D" =
          some mc ∧
      mc ∈ (get_by_md5 c8Dst c8Src.md5).filter
        (fun c => !(([] : List String).contains c.relative_path)) ∧
      (((get_by_md5 c8Dst c8Src.md5).filter
          (fun c => !(([] : List String).contains c.relative_path))).filter
          (fun c => osBasename c.relative_path ==
            osBasename c8Src.relative_path) ≠ [] →
        osBasename mc.relative_path = osBasename c8Src.relative_path ∧
        ∀ c ∈ ((get_by_md5 c8Dst c8Src.md5).filter
            (fun c => !(([] : List String).contains c.relative_path))).filter
            (fun c => osBasename c.relative_path == osBasename c8Src.relative_path),
          pathDistance c8Src.relative_path mc.relative_path ≤
          pathDistance c8Src.relative_path c.relative_path) ∧
      (((get_by_md5 c8Dst c8Src.md5).filter
          (fun c => !(([] : List String).contains c.relative_path))).filter
          (fun c => osBasename c.relative_path ==
            osBasename c8Src.relative_path) = [] →
        ∀ c ∈ (get_by_md5 c8Dst c8Src.md5).filter
            (fun c => !(([] : List String).contains c.relative_path)),
          pathDistance c8Src.relative_path mc.relative_path ≤
          pathDistance c8Src.relative_path c.relative_path)) ∧
    (∀ p q : String, pathDistance p q =
      ((strSplitOnChar '/' p).dropLast.length -
        commonPrefixLen (strSplitOnChar '/' p).dropLast (strSplitOnChar '/' q).dropLast) +
      ((strSplitOnChar '/' q).dropLast.length -
        commonPrefixLen (strSplitOnChar '/' p).dropLast (strSplitOnChar '/' q).dropLast)) ∧
    (∀ l1 l2 : List String,
      l1.take (commonPrefixLen l1 l2) = l2.take (commonPrefixLen l1 l2) ∧
      commonPrefixLen l1 l2 ≤ l1.length ∧ commonPrefixLen l1 l2 ≤ l2.length ∧
      ∀ n, n ≤ l1.length → n ≤ l2.length → l1.take n = l2.take n →
        n ≤ commonPrefixLen l1 l2) :=
  move_candidate_selection c8Dst [] c8Src "S" "D" (by rfl) (by decide)

theorem build_index_size_bound_witness :
    (∀ f ∈ (build_index id "S" c9Tree EXCLUDE_DIRS EXCLUDE_EXTENSIONS 256 none).1,
      f.size ≤ 256 * 1048576) ∧
    (∀ (path : String) (sz : Nat),
      (∀ part ∈ strSplitOnChar '/' path, EXCLUDE_DIRS.contains part = false) →
      (∀ e ∈ EXCLUDE_EXTENSIONS, strEndsWith (strToLower path) (strToLower e) = false) →
      ((should_exclude path sz EXCLUDE_DIRS EXCLUDE_EXTENSIONS 256).isSome ↔
        sz > 256 * 1048576)) ∧
    (build_index id "S" c9Tree EXCLUDE_DIRS EXCLUDE_EXTENSIONS 256 none).1 =
      ((walkFiles "S" c9Tree EXCLUDE_DIRS).filter
        (indexAccepts EXCLUDE_DIRS EXCLUDE_EXTENSIONS 256)).map
        (indexRec id "S" none) ∧
    (build_index id "S" c9Tree EXCLUDE_DIRS EXCLUDE_EXTENSIONS 256 none).2 =
      ((walkFiles "S" c9Tree EXCLUDE_DIRS).filter
        (fun e => !(indexAccepts EXCLUDE_DIRS EXCLUDE_EXTENSIONS 256 e))).map
        (skipRec "S" EXCLUDE_DIRS EXCLUDE_EXTENSIONS 256) :=
  build_index_size_bound id "S" c9Tree EXCLUDE_DIRS EXCLUDE_EXTENSIONS 256 none
